import Mathlib

/-!
Shallow embedding of lib/Target/TargetData.cpp (target data layout engine):
the alignment table (TargetAlignElem, setAlignment, the equal_range lookup),
the descriptor parser/printer (init, getStringRepresentation), the
size/alignment oracle (getTypeSize, getAlignment, getTypeSizeInBits), the
struct layout builder (StructLayout) and the indexed-offset resolver
(getIndexedOffset), together with theorems settling the frozen claims.

Machine integers are modelled as Nat/Int with explicit wrapping where the
source casts: unsigned char stores are `% 256` (toU8), the `(short)` cast
followed by storage in the 16-bit TypeBitWidth field is `% 65536` (toU16),
the `(unsigned)` casts in getTypeSize/StructLayout are `% 2^32`, and
uint64_t arithmetic is `% 2^64`.
-/

/-- Models AlignTypeEnum. The enum declaration lives in the header
llvm/Target/TargetData.h, which is not part of the sources; the numeric
ordering INTEGER < FLOAT < PACKED < AGGREGATE is Modelled from the spec:
the canonical printed form sorts entries i, f, v, a (spec section 8, S6),
and the sort order is lexicographic on (kind, bit_width). -/
inductive AlignTypeEnum where
  | INTEGER_ALIGN
  | FLOAT_ALIGN
  | PACKED_ALIGN
  | AGGREGATE_ALIGN
deriving DecidableEq, Repr

/-- Numeric value of the enum constant, used by operator< on TargetAlignElem. -/
def AlignTypeEnum.toNat : AlignTypeEnum → Nat
  | .INTEGER_ALIGN => 0
  | .FLOAT_ALIGN => 1
  | .PACKED_ALIGN => 2
  | .AGGREGATE_ALIGN => 3

/-- Character used for this kind in the configuration string. Modelled from
the spec: the printer emits the kind character i/f/v/a (spec section 4.2);
the rendering of the AlignType field by TargetAlignElem::dump depends on the
missing header's enum declaration. -/
def AlignTypeEnum.kindChar : AlignTypeEnum → Char
  | .INTEGER_ALIGN => 'i'
  | .FLOAT_ALIGN => 'f'
  | .PACKED_ALIGN => 'v'
  | .AGGREGATE_ALIGN => 'a'

/-- Models struct TargetAlignElem (TargetData.cpp lines 95-121; field types
from the spec's data model: abi/pref alignment u8 in bytes, bit width u16).
All values stored by the program are written through the unsigned-char /
short casts, so the Nat fields hold the wrapped values. -/
structure TargetAlignElem where
  AlignType : AlignTypeEnum
  ABIAlign : Nat
  PrefAlign : Nat
  TypeBitWidth : Nat
deriving DecidableEq, Repr

/-- Models TargetAlignElem::operator< (lines 107-112): lexicographic on
(AlignType, TypeBitWidth). -/
def elemLt (a b : TargetAlignElem) : Bool :=
  decide (a.AlignType.toNat < b.AlignType.toNat) ||
    (decide (a.AlignType = b.AlignType) && decide (a.TypeBitWidth < b.TypeBitWidth))

/-- Position returned by std::equal_range(...).first (= std::lower_bound)
on the sorted Alignments vector: the index of the first element that is not
less than the search key. On a sorted list this is the length of the
prefix of elements below the key. -/
def lowerBound (l : List TargetAlignElem) (e : TargetAlignElem) : Nat :=
  (l.takeWhile (fun x => elemLt x e)).length

/-- Models class TargetData's data members (header modelled from the spec's
descriptor data model: endianness flag, pointer size and alignments in
bytes as small unsigned integers, and the sorted alignment table). -/
structure TargetData where
  LittleEndian : Bool
  PointerMemSize : Nat
  PointerABIAlign : Nat
  PointerPrefAlign : Nat
  Alignments : List TargetAlignElem
deriving DecidableEq, Repr

/-- Models TargetData::setAlignment (lines 261-287): find the lower bound
for the new element; if the element there has the same (AlignType,
TypeBitWidth) key, update its ABIAlign/PrefAlign in place (the key fields
are equal, so the update is written as replacing the whole record);
otherwise insert the new element before the lower-bound position.

The source dereferences the lower-bound iterator I unconditionally
(line 269).  When I == Alignments.end() -- the search key is greater than
every stored record, as happens on each of the ten default-seed
insertions -- that read is past the end of the vector (see claim C10);
the no-match outcome that the code intends, insertion at the end, is what
is modelled here. -/
def insertOrUpdate (l : List TargetAlignElem) (elt : TargetAlignElem) :
    List TargetAlignElem :=
  let i := lowerBound l elt
  match l.get? i with
  | some x =>
    if x.AlignType = elt.AlignType ∧ x.TypeBitWidth = elt.TypeBitWidth then
      l.set i elt
    else
      l.take i ++ elt :: l.drop i
  | none => l ++ [elt]

def setAlignment (td : TargetData) (align_type : AlignTypeEnum)
    (abi_align pref_align bit_width : Nat) : TargetData :=
  { td with
    Alignments :=
      insertOrUpdate td.Alignments ⟨align_type, abi_align, pref_align, bit_width⟩ }

/-- Models the table-lookup overload TargetData::getAlignment(AlignTypeEnum,
short) (lines 289-301): build a search key with the given kind and bit
width (the short parameter stored into the u16 TypeBitWidth field wraps
modulo 2^16) and return the record at the equal_range lower bound.  The
source returns *I unconditionally; when I == end() the reference is past
the end of the vector, modelled as none. -/
def getAlignmentEntry (td : TargetData) (align_type : AlignTypeEnum)
    (bit_width : Nat) : Option TargetAlignElem :=
  td.Alignments.get? (lowerBound td.Alignments ⟨align_type, 0, 0, bit_width % 65536⟩)

/-- Conversion of an int value to unsigned char, as in C (wrap modulo 256). -/
def toU8 (i : Int) : Nat := (i % 256).toNat

/-- Composition of the (short) cast with storage in the 16-bit TypeBitWidth
field: wrap modulo 2^16. -/
def toU16 (i : Int) : Nat := (i % 65536).toNat

/-- Character class used by C atoi for its leading-whitespace skip. -/
def isCSpace (c : Char) : Bool :=
  c = ' ' || c = '\t' || c = '\n' || c = '\x0b' || c = '\x0c' || c = '\r'

/-- Value of a list of decimal digit characters. -/
def digitsVal (cs : List Char) : Nat :=
  cs.foldl (fun a c => a * 10 + (c.toNat - '0'.toNat)) 0

/-- Models C atoi on the token strings: skip whitespace, optional sign,
then the longest prefix of decimal digits (0 if there are none). -/
def atoi (s : List Char) : Int :=
  let s1 := s.dropWhile isCSpace
  match s1 with
  | '-' :: r => - (digitsVal (r.takeWhile Char.isDigit) : Int)
  | '+' :: r => (digitsVal (r.takeWhile Char.isDigit) : Int)
  | r => (digitsVal (r.takeWhile Char.isDigit) : Int)

/-- Models llvm::getToken(Source, Delimiters) from StringExtras (declared
outside these sources; Modelled from the spec: hyphen-delimited tokens,
each token colon-delimited, leading delimiters skipped): skip leading
delimiter characters, return the run up to the next delimiter, and leave
the rest (starting with that delimiter) as the new source. -/
def getToken (s : List Char) (d : Char) : List Char × List Char :=
  let s1 := s.dropWhile (fun c => c == d)
  (s1.takeWhile (fun c => !(c == d)), s1.dropWhile (fun c => !(c == d)))

theorem dropWhile_length_le {α : Type} (p : α → Bool) (l : List α) :
    (l.dropWhile p).length ≤ l.length := by
  induction l with
  | nil => simp
  | cons a l ih =>
    rw [List.dropWhile_cons]
    split
    · simp only [List.length_cons]; omega
    · simp

theorem dropWhile_head_not {α : Type} (p : α → Bool) (l : List α) (c : α)
    (cs : List α) (h : l.dropWhile p = c :: cs) : p c = false := by
  induction l with
  | nil => simp at h
  | cons a l ih =>
    rw [List.dropWhile_cons] at h
    by_cases hp : p a = true
    · exact ih (by simpa [hp] using h)
    · simp only [hp, if_false] at h
      cases h
      simpa using hp

theorem getToken_rest_length_lt (s : List Char) (d : Char) (h : s ≠ []) :
    (getToken s d).2.length < s.length := by
  unfold getToken
  simp only
  cases hcase : s.dropWhile (fun c => c == d) with
  | nil =>
    simp only [List.dropWhile_nil, List.length_nil]
    exact List.length_pos.mpr h
  | cons c cs =>
    have hc : (c == d) = false := dropWhile_head_not (fun x => x == d) s c cs hcase
    have h1 : ((c :: cs).dropWhile (fun c => !(c == d))).length ≤ cs.length := by
      rw [List.dropWhile_cons_of_pos (by simp [hc])]
      exact dropWhile_length_le _ _
    have h2 : cs.length + 1 ≤ s.length := by
      have := dropWhile_length_le (fun c => c == d) s
      rw [hcase] at this
      simpa using this
    omega

/-- Models the body of the token-processing while loop of TargetData::init
(lines 201-243) applied to one hyphen-delimited token. -/
def processToken (td : TargetData) (tok : List Char) : TargetData :=
  let a0 := getToken tok ':'
  let arg0 := a0.1
  let tok1 := a0.2
  match arg0 with
  | [] => td
  | c :: cs =>
    if c = 'E' then { td with LittleEndian := false }
    else if c = 'e' then { td with LittleEndian := true }
    else if c = 'p' then
      let t1 := getToken tok1 ':'
      let t2 := getToken t1.2 ':'
      let t3 := getToken t2.2 ':'
      let pms := toU8 (Int.tdiv (atoi t1.1) 8)
      let pabi := toU8 (Int.tdiv (atoi t2.1) 8)
      let ppref0 := toU8 (Int.tdiv (atoi t3.1) 8)
      let ppref := if ppref0 = 0 then pabi else ppref0
      { td with PointerMemSize := pms, PointerABIAlign := pabi,
                PointerPrefAlign := ppref }
    else if c = 'i' || c = 'v' || c = 'f' || c = 'a' then
      let align_type : AlignTypeEnum :=
        if c = 'i' then .INTEGER_ALIGN
        else if c = 'f' then .FLOAT_ALIGN
        else if c = 'v' then .PACKED_ALIGN
        else .AGGREGATE_ALIGN
      let size := toU16 (atoi cs)
      let t1 := getToken tok1 ':'
      let t2 := getToken t1.2 ':'
      let abi_align := toU8 (Int.tdiv (atoi t1.1) 8)
      let pref0 := toU8 (Int.tdiv (atoi t2.1) 8)
      let pref_align := if pref0 = 0 then abi_align else pref0
      setAlignment td align_type abi_align pref_align size
    else td

/-- Models the while loop of TargetData::init (lines 201-243): repeatedly
strip a hyphen-delimited token from the remaining description and process
it. -/
def parseLoop (td : TargetData) (temp : List Char) : TargetData :=
  if h : temp = [] then td
  else parseLoop (processToken td (getToken temp '-').1) (getToken temp '-').2
termination_by temp.length
decreasing_by exact getToken_rest_length_lt temp '-' h

/-- Models the default-alignment seeding of TargetData::init
(lines 184-199). -/
def seedDefaults (td : TargetData) : TargetData :=
  let td := { td with LittleEndian := false, PointerMemSize := 8,
                      PointerABIAlign := 8, PointerPrefAlign := 8 }
  let td := setAlignment td .INTEGER_ALIGN 1 1 1
  let td := setAlignment td .INTEGER_ALIGN 1 1 8
  let td := setAlignment td .INTEGER_ALIGN 2 2 16
  let td := setAlignment td .INTEGER_ALIGN 4 4 32
  let td := setAlignment td .INTEGER_ALIGN 0 8 64
  let td := setAlignment td .FLOAT_ALIGN 4 4 32
  let td := setAlignment td .FLOAT_ALIGN 0 8 64
  let td := setAlignment td .PACKED_ALIGN 8 8 64
  let td := setAlignment td .PACKED_ALIGN 16 16 128
  setAlignment td .AGGREGATE_ALIGN 0 0 0

/-- Models the post-parse fixup for 64-bit integers (lines 248-250): if the
i64 ABI alignment is still 0, cap it by the pointer size.  The source reads
the lookup result unconditionally; the none case (empty table) is
unreachable after seeding and modelled as a no-op. -/
def fixupLong (td : TargetData) : TargetData :=
  match getAlignmentEntry td .INTEGER_ALIGN 64 with
  | some e =>
    if e.ABIAlign = 0 then
      setAlignment td .INTEGER_ALIGN td.PointerMemSize td.PointerMemSize 64
    else td
  | none => td

/-- Models the post-parse fixup for doubles (lines 252-254). -/
def fixupDouble (td : TargetData) : TargetData :=
  match getAlignmentEntry td .FLOAT_ALIGN 64 with
  | some e =>
    if e.ABIAlign = 0 then
      setAlignment td .FLOAT_ALIGN td.PointerMemSize td.PointerMemSize 64
    else td
  | none => td

/-- Fresh descriptor state before TargetData::init runs (default-constructed
object: empty alignment table). -/
def emptyTD : TargetData :=
  { LittleEndian := false, PointerMemSize := 8, PointerABIAlign := 8,
    PointerPrefAlign := 8, Alignments := [] }

/-- Models TargetData::init (lines 181-255): seed the defaults, run the
token loop over the description string, then apply the i64/f64 fixups. -/
def init (s : List Char) : TargetData :=
  fixupDouble (fixupLong (parseLoop (seedDefaults emptyTD) s))

/-- Decimal rendering of a Nat, as operator<< on an integral value. -/
def natReprAux (n : Nat) (acc : List Char) : List Char :=
  if h : n < 10 then Char.ofNat (48 + n) :: acc
  else natReprAux (n / 10) (Char.ofNat (48 + n % 10) :: acc)
termination_by n
decreasing_by exact Nat.div_lt_self (by omega) (by omega)

/-- Decimal rendering of a Nat. -/
def natRepr (n : Nat) : List Char := natReprAux n []

/-- Models TargetAlignElem::dump (lines 123-130): the kind, the bit width,
then ABI and preferred alignments converted back to bits.  The kind is
rendered as its configuration character (Modelled from the spec: the
canonical form uses i/f/v/a; the stream rendering of the AlignType field
depends on the missing header's enum declaration). -/
def dumpElem (e : TargetAlignElem) : List Char :=
  e.AlignType.kindChar :: natRepr e.TypeBitWidth
    ++ ':' :: natRepr (e.ABIAlign * 8)
    ++ ':' :: natRepr (e.PrefAlign * 8)

/-- Models TargetData::getStringRepresentation (lines 407-418): endianness
character, the pointer specifier with values in bits, then every alignment
record in table order, each preceded by a hyphen. -/
def getStringRepresentation (td : TargetData) : List Char :=
  (if td.LittleEndian then ['e'] else ['E'])
    ++ '-' :: 'p' :: ':' :: natRepr (td.PointerMemSize * 8)
    ++ ':' :: natRepr (td.PointerABIAlign * 8)
    ++ ':' :: natRepr (td.PointerPrefAlign * 8)
    ++ td.Alignments.foldl (fun acc e => acc ++ '-' :: dumpElem e) []

/-- Minimal model of the IR type system collaborator (spec section 6): the
type kinds TargetData.cpp discriminates on, with the structural queries it
uses (element types, element counts, integer bit width).  PackedType's
getBitWidth() is numElements * getPrimitiveSizeInBits(element). -/
inductive Ty where
  | voidT
  | label
  | integer (bitWidth : Nat)
  | floatT
  | doubleT
  | pointer (elementType : Ty)
  | array (elementType : Ty) (numElements : Nat)
  | packed (elementType : Ty) (numElements : Nat)
  | structT (elementTypes : List Ty)

/-- Models Type::getPrimitiveSizeInBits for the element types a PackedType
can carry (integers and floats; 0 otherwise). -/
def primitiveSizeInBits : Ty → Nat
  | .integer bw => bw
  | .floatT => 32
  | .doubleT => 64
  | _ => 0

/-- Models PackedType::getBitWidth(). -/
def packedBitWidth (elt : Ty) (n : Nat) : Nat := n * primitiveSizeInBits elt

/-- Models Type::isInteger(). -/
def Ty.isInteger : Ty → Bool
  | .integer _ => true
  | _ => false

/-- Models struct StructLayout (variable-length layout record): total size
in bytes, struct alignment in bytes, and the member offset table. -/
structure StructLayout where
  StructSize : Nat
  StructAlignment : Nat
  MemberOffsets : List Nat
deriving DecidableEq, Repr

mutual

/-- Models TargetData::getTypeSize (lines 421-470).  Fatal paths (assert on
integers wider than 64 bits) and undefined behaviour (division by a zero
alignment in the array case) are modelled as none.  The array case keeps
the source's `unsigned AlignedSize` truncation (mod 2^32) and the uint64_t
product (mod 2^64). -/
def getTypeSize (td : TargetData) : Ty → Option Nat
  | .label => some td.PointerMemSize
  | .pointer _ => some td.PointerMemSize
  | .array elt n =>
    match getTypeSize td elt, getAlignment td elt true with
    | some Size, some Alignment =>
      if Alignment = 0 then none
      else some ((Size + Alignment - 1) / Alignment * Alignment % 2 ^ 32 * n % 2 ^ 64)
    | _, _ => none
  | .structT elts =>
    match structLayout td elts with
    | some Layout => some Layout.StructSize
    | none => none
  | .integer bw =>
    if bw ≤ 8 then some 1
    else if bw ≤ 16 then some 2
    else if bw ≤ 32 then some 4
    else if bw ≤ 64 then some 8
    else none
  | .voidT => some 1
  | .floatT => some 4
  | .doubleT => some 8
  | .packed elt n => some (packedBitWidth elt n / 8)
termination_by t => (sizeOf t, 0)

/-- Models the StructLayout constructor (lines 43-74): walk the fields in
order, padding the running size up to each field's ABI alignment, recording
the offset, accumulating the size and the maximum alignment.  The source
stores `TySize = (unsigned) TD.getTypeSize(Ty)` (mod 2^32) into a uint64_t
running size (mod 2^64); `StructSize % TyAlign` with TyAlign == 0 is
division by zero, modelled as none.  Returns (running size, running
alignment, offsets of the remaining fields). -/
def structLayoutFields (td : TargetData) :
    List Ty → Nat → Nat → Option (Nat × Nat × List Nat)
  | [], StructSize, StructAlignment => some (StructSize, StructAlignment, [])
  | t :: rest, StructSize, StructAlignment =>
    match getAlignment td t true, getTypeSize td t with
    | some TyAlign, some TySizeRaw =>
      if TyAlign = 0 then none
      else
        let TySize := TySizeRaw % 2 ^ 32
        let padded :=
          if StructSize % TyAlign ≠ 0 then
            (StructSize / TyAlign + 1) * TyAlign % 2 ^ 64
          else StructSize
        match structLayoutFields td rest ((padded + TySize) % 2 ^ 64)
            (max TyAlign StructAlignment) with
        | some (s, a, offs) => some (s, a, padded :: offs)
        | none => none
    | _, _ => none
termination_by l _ _ => (sizeOf l, 1)

/-- Models the end of the StructLayout constructor (lines 67-73): empty
structures get alignment 1; the size is tail-padded up to a multiple of the
struct alignment. -/
def structLayout (td : TargetData) (elts : List Ty) : Option StructLayout :=
  match structLayoutFields td elts 0 0 with
  | some (size, align, offs) =>
    let salign := if align = 0 then 1 else align
    some ⟨if size % salign ≠ 0 then (size / salign + 1) * salign % 2 ^ 64 else size,
          salign, offs⟩
  | none => none
termination_by (sizeOf elts, 2)

/-- Models TargetData::getAlignment(const Type*, bool) (lines 488-549):
pointer alignments for label/pointer, element alignment for arrays, the
aggregate rule for structs, and a table lookup keyed by
(kind, getTypeSize * 8) for the numeric kinds.  The unsigned char return
type wraps modulo 256.  The abort() on an invalid lookup and the
unreachable invalid-reference cases are modelled as none. -/
def getAlignment (td : TargetData) : Ty → Bool → Option Nat
  | .label, abi_or_pref =>
    some ((if abi_or_pref then td.PointerABIAlign else td.PointerPrefAlign) % 256)
  | .pointer _, abi_or_pref =>
    some ((if abi_or_pref then td.PointerABIAlign else td.PointerPrefAlign) % 256)
  | .array elt _, abi_or_pref => getAlignment td elt abi_or_pref
  | .structT elts, abi_or_pref =>
    match structLayout td elts, getAlignmentEntry td .AGGREGATE_ALIGN 0 with
    | some Layout, some elem =>
      some ((if abi_or_pref then
              if elem.ABIAlign < Layout.StructAlignment then Layout.StructAlignment
              else elem.ABIAlign
            else
              if elem.PrefAlign < Layout.StructAlignment then Layout.StructAlignment
              else elem.PrefAlign) % 256)
    | _, _ => none
  | .integer bw, abi_or_pref =>
    match getTypeSize td (.integer bw) with
    | some s =>
      match getAlignmentEntry td .INTEGER_ALIGN (s * 8) with
      | some elem => some ((if abi_or_pref then elem.ABIAlign else elem.PrefAlign) % 256)
      | none => none
    | none => none
  | .voidT, abi_or_pref =>
    match getTypeSize td .voidT with
    | some s =>
      match getAlignmentEntry td .INTEGER_ALIGN (s * 8) with
      | some elem => some ((if abi_or_pref then elem.ABIAlign else elem.PrefAlign) % 256)
      | none => none
    | none => none
  | .floatT, abi_or_pref =>
    match getTypeSize td .floatT with
    | some s =>
      match getAlignmentEntry td .FLOAT_ALIGN (s * 8) with
      | some elem => some ((if abi_or_pref then elem.ABIAlign else elem.PrefAlign) % 256)
      | none => none
    | none => none
  | .doubleT, abi_or_pref =>
    match getTypeSize td .doubleT with
    | some s =>
      match getAlignmentEntry td .FLOAT_ALIGN (s * 8) with
      | some elem => some ((if abi_or_pref then elem.ABIAlign else elem.PrefAlign) % 256)
      | none => none
    | none => none
  | .packed elt n, abi_or_pref =>
    match getTypeSize td (.packed elt n) with
    | some s =>
      match getAlignmentEntry td .PACKED_ALIGN (s * 8) with
      | some elem => some ((if abi_or_pref then elem.ABIAlign else elem.PrefAlign) % 256)
      | none => none
    | none => none
termination_by t _ => (sizeOf t, 3)

end

/-- Models TargetData::getABITypeAlignment (lines 551-553). -/
def getABITypeAlignment (td : TargetData) (t : Ty) : Option Nat :=
  getAlignment td t true

/-- Models TargetData::getPrefTypeAlignment (lines 555-557). -/
def getPrefTypeAlignment (td : TargetData) (t : Ty) : Option Nat :=
  getAlignment td t false

/-- Models TargetData::getTypeSizeInBits (lines 472-477): the raw bit
width for integers (Ty->isInteger()), otherwise 8 * getTypeSize. -/
def getTypeSizeInBits (td : TargetData) (t : Ty) : Option Nat :=
  match t with
  | .integer bw => some bw
  | _ => (getTypeSize td t).map (· * 8)

/-! Evaluation helpers for the while loop of init. -/

theorem parseLoop_nil (td : TargetData) : parseLoop td [] = td := by
  rw [parseLoop]
  simp

theorem parseLoop_step {tok rest : List Char} (td : TargetData) (temp : List Char)
    (h : ¬ temp = []) (hg : getToken temp '-' = (tok, rest)) :
    parseLoop td temp = parseLoop (processToken td tok) rest := by
  rw [parseLoop]
  simp [h, hg]

/-- Descriptor produced by init on the empty configuration string: the
default seed plus the i64/f64 fixups. -/
def tdDefault : TargetData := init []

theorem tdDefault_eq : tdDefault = ⟨false, 8, 8, 8,
    [⟨.INTEGER_ALIGN, 1, 1, 1⟩, ⟨.INTEGER_ALIGN, 1, 1, 8⟩, ⟨.INTEGER_ALIGN, 2, 2, 16⟩,
     ⟨.INTEGER_ALIGN, 4, 4, 32⟩, ⟨.INTEGER_ALIGN, 8, 8, 64⟩, ⟨.FLOAT_ALIGN, 4, 4, 32⟩,
     ⟨.FLOAT_ALIGN, 8, 8, 64⟩, ⟨.PACKED_ALIGN, 8, 8, 64⟩, ⟨.PACKED_ALIGN, 16, 16, 128⟩,
     ⟨.AGGREGATE_ALIGN, 0, 0, 0⟩]⟩ := by
  simp only [tdDefault, init]
  rw [parseLoop_nil]
  decide

/-! Machinery for the table lookup: the lower bound returns the first
record at or after the search key. -/

/-- The search key is at or before a record in the (kind, bit width)
lexicographic order: the negation of operator< applied the other way
round. -/
def keyAtOrAfter (k e : TargetAlignElem) : Bool :=
  decide (k.AlignType.toNat < e.AlignType.toNat) ||
    (decide (k.AlignType = e.AlignType) && decide (k.TypeBitWidth ≤ e.TypeBitWidth))

theorem decide_lt_eq_not_decide_le (a b : Nat) : decide (a < b) = !decide (b ≤ a) := by
  by_cases h : a < b
  · have h' : ¬ b ≤ a := by omega
    simp [h, h']
  · have h' : b ≤ a := by omega
    simp [h, h']

theorem not_elemLt (e k : TargetAlignElem) : (!elemLt e k) = keyAtOrAfter k e := by
  obtain ⟨a1, b1, c1, d1⟩ := e
  obtain ⟨a2, b2, c2, d2⟩ := k
  cases a1 <;> cases a2 <;>
    simp [elemLt, keyAtOrAfter, AlignTypeEnum.toNat] <;>
    exact decide_lt_eq_not_decide_le d1 d2

theorem get_lowerBound_eq_find (l : List TargetAlignElem) (k : TargetAlignElem) :
    l.get? (lowerBound l k) = l.find? (fun e => !elemLt e k) := by
  induction l with
  | nil => simp [lowerBound]
  | cons x xs ih =>
    by_cases h : elemLt x k = true
    · simpa [lowerBound, List.takeWhile_cons, h, List.find?] using ih
    · have h' : elemLt x k = false := by simpa using h
      simp [lowerBound, List.takeWhile_cons, h', List.find?]

/-- Claim C6: for every descriptor built by init and every (kind, bit_width)
query, the table lookup getAlignment(kind, bit_width) returns the first
record at or after the search key in (kind, bit_width) lexicographic order;
in particular a query for (INTEGER, 24) on the default spec, which lacks an
i24 entry, returns the i32 record's alignments. -/
theorem claim6_theorem :
    (∀ (s : List Char) (kind : AlignTypeEnum) (bw : Nat),
      getAlignmentEntry (init s) kind bw =
        (init s).Alignments.find? (fun e => keyAtOrAfter ⟨kind, 0, 0, bw % 65536⟩ e)) ∧
    getAlignmentEntry tdDefault .INTEGER_ALIGN 24 = some ⟨.INTEGER_ALIGN, 4, 4, 32⟩ := by
  constructor
  · intro s kind bw
    rw [getAlignmentEntry, get_lowerBound_eq_find]
    congr 1
    funext e
    exact not_elemLt e ⟨kind, 0, 0, bw % 65536⟩
  · rw [tdDefault_eq]
    decide

/-- Claim C7 counterexample: the claim states that size_bits equals
8 * size_bytes for primitive integers whose bit width is a power of two,
such as i1; but getTypeSizeInBits returns the raw bit width for every
integer, so on i1 (width 1 = 2^0, a power of two) it returns 1 while
8 * size_bytes(i1) = 8. -/
theorem claim7_counterexample :
    2 ^ 0 = 1 ∧
    getTypeSizeInBits tdDefault (.integer 1) = some 1 ∧
    (getTypeSize tdDefault (.integer 1)).map (· * 8) = some 8 ∧
    getTypeSizeInBits tdDefault (.integer 1) ≠
      (getTypeSize tdDefault (.integer 1)).map (· * 8) := by
  refine ⟨rfl, rfl, ?_, ?_⟩ <;> simp [getTypeSizeInBits, getTypeSize]

/-- Claim C7 (amended): for every sized type T, size_bits(T) as computed by
getTypeSizeInBits equals bit_width(T) whenever T is a primitive integer
(whatever its width), and equals 8 * size_bytes(T) for every non-integer T;
on the default descriptor the two rules agree on an integer width in
[1, 64] exactly when that width is 8, 16, 32 or 64. -/
theorem claim7_theorem :
    (∀ (td : TargetData) (bw : Nat), getTypeSizeInBits td (.integer bw) = some bw) ∧
    (∀ (td : TargetData) (t : Ty), t.isInteger = false →
      getTypeSizeInBits td t = (getTypeSize td t).map (· * 8)) ∧
    (∀ bw, 1 ≤ bw → bw ≤ 64 →
      (getTypeSizeInBits tdDefault (.integer bw) =
          (getTypeSize tdDefault (.integer bw)).map (· * 8) ↔
        bw = 8 ∨ bw = 16 ∨ bw = 32 ∨ bw = 64)) := by
  refine ⟨fun td bw => rfl, ?_, ?_⟩
  · intro td t h
    cases t <;> first | rfl | simp [Ty.isInteger] at h
  · intro bw h1 h64
    rw [getTypeSizeInBits, getTypeSize]
    by_cases h8 : bw ≤ 8
    · simp [h8]; omega
    · by_cases h16 : bw ≤ 16
      · simp [h8, h16]; omega
      · by_cases h32 : bw ≤ 32
        · simp [h8, h16, h32]; omega
        · simp [h8, h16, h32, h64]; omega

/-- Claim C7 witness: the amended theorem applied at the non-integer type
float (size_bits = 8 * size_bytes = 32) and at the integer width 24, where
the code's answer 24 differs from 8 * size_bytes = 32. -/
theorem claim7_witness :
    Ty.isInteger .floatT = false ∧
    getTypeSizeInBits tdDefault .floatT = (getTypeSize tdDefault .floatT).map (· * 8) ∧
    (1 : Nat) ≤ 24 ∧ (24 : Nat) ≤ 64 ∧
    getTypeSizeInBits tdDefault (.integer 24) ≠
      (getTypeSize tdDefault (.integer 24)).map (· * 8) := by
  refine ⟨rfl, claim7_theorem.2.1 tdDefault .floatT rfl, by norm_num, by norm_num, ?_⟩
  intro hc
  rcases (claim7_theorem.2.2 24 (by norm_num) (by norm_num)).mp hc with h | h | h | h <;>
    norm_num at h

/-! Order facts for TargetAlignElem and the recursion equation of
insertOrUpdate, the backbone of the table invariants. -/

theorem toNat_inj (a b : AlignTypeEnum) : a.toNat = b.toNat ↔ a = b := by
  cases a <;> cases b <;> decide

theorem elemLt_iff (a b : TargetAlignElem) :
    elemLt a b = true ↔
      (a.AlignType.toNat < b.AlignType.toNat ∨
        (a.AlignType.toNat = b.AlignType.toNat ∧ a.TypeBitWidth < b.TypeBitWidth)) := by
  simp [elemLt, toNat_inj]

theorem elemLt_key_congr (a a' b : TargetAlignElem)
    (hk : a.AlignType = a'.AlignType) (hw : a.TypeBitWidth = a'.TypeBitWidth) :
    elemLt a b = elemLt a' b ∧ elemLt b a = elemLt b a' := by
  simp [elemLt, hk, hw]

theorem elemLt_trans {a b c : TargetAlignElem} (h1 : elemLt a b = true)
    (h2 : elemLt b c = true) : elemLt a c = true := by
  rw [elemLt_iff] at *
  omega

theorem elemLt_irrefl (a : TargetAlignElem) : elemLt a a = false := by
  simp [elemLt]

theorem elemLt_of_not_both {a b : TargetAlignElem} (h1 : ¬ elemLt a b = true)
    (h2 : ¬ (a.AlignType = b.AlignType ∧ a.TypeBitWidth = b.TypeBitWidth)) :
    elemLt b a = true := by
  rw [elemLt_iff]
  rw [elemLt_iff] at h1
  have hk : a.AlignType.toNat = b.AlignType.toNat → a.AlignType = b.AlignType :=
    (toNat_inj _ _).mp
  by_cases he : a.AlignType.toNat = b.AlignType.toNat
  · have := hk he
    have hw : ¬ a.TypeBitWidth = b.TypeBitWidth := fun hw => h2 ⟨this, hw⟩
    omega
  · omega

theorem elemLt_keys_ne {a b : TargetAlignElem} (h : elemLt a b = true) :
    ¬ (a.AlignType = b.AlignType ∧ a.TypeBitWidth = b.TypeBitWidth) := by
  rw [elemLt_iff] at h
  rintro ⟨h1, h2⟩
  rw [h1, h2] at h
  omega

theorem insertOrUpdate_nil (elt : TargetAlignElem) : insertOrUpdate [] elt = [elt] := rfl

theorem insertOrUpdate_cons (x : TargetAlignElem) (xs : List TargetAlignElem)
    (elt : TargetAlignElem) :
    insertOrUpdate (x :: xs) elt =
      if elemLt x elt = true then x :: insertOrUpdate xs elt
      else if x.AlignType = elt.AlignType ∧ x.TypeBitWidth = elt.TypeBitWidth then
        elt :: xs
      else elt :: x :: xs := by
  by_cases h : elemLt x elt = true
  · have hlb : lowerBound (x :: xs) elt = lowerBound xs elt + 1 := by
      simp [lowerBound, List.takeWhile_cons, h]
    rw [insertOrUpdate, insertOrUpdate]
    simp only [hlb, h, if_true, List.get?_cons_succ]
    cases hg : xs.get? (lowerBound xs elt) with
    | some y =>
      simp only [hg]
      split
      · simp [List.set]
      · simp [List.take_succ_cons, List.drop_succ_cons]
    | none => simp [hg]
  · have hlb : lowerBound (x :: xs) elt = 0 := by
      simp [lowerBound, List.takeWhile_cons, h]
    rw [insertOrUpdate]
    simp only [hlb, h, if_false, List.get?_cons_zero]
    split
    · simp [List.set]
    · simp [List.take, List.drop]

theorem mem_insertOrUpdate {l : List TargetAlignElem} {elt y : TargetAlignElem}
    (h : y ∈ insertOrUpdate l elt) : y ∈ l ∨ y = elt := by
  induction l with
  | nil => simpa [insertOrUpdate_nil] using h
  | cons x xs ih =>
    rw [insertOrUpdate_cons] at h
    split at h
    · rw [List.mem_cons] at h
      rcases h with h | h
      · exact Or.inl (by simp [h])
      · rcases ih h with h' | h'
        · exact Or.inl (by simp [h'])
        · exact Or.inr h'
    · split at h
      · rw [List.mem_cons] at h
        rcases h with h | h
        · exact Or.inr h
        · exact Or.inl (List.mem_cons_of_mem _ h)
      · rw [List.mem_cons] at h
        rcases h with h | h
        · exact Or.inr h
        · exact Or.inl h

theorem elt_mem_insertOrUpdate (l : List TargetAlignElem) (elt : TargetAlignElem) :
    elt ∈ insertOrUpdate l elt := by
  induction l with
  | nil => simp [insertOrUpdate_nil]
  | cons x xs ih =>
    rw [insertOrUpdate_cons]
    split
    · simp [ih]
    · split <;> simp


/-- Well-formedness of the Alignments vector: strictly sorted by
operator< (which gives uniqueness of (kind, bit width) keys). -/
def tableWF (l : List TargetAlignElem) : Prop :=
  l.Pairwise (fun a b => elemLt a b = true)

theorem tableWF_cons_iff (x : TargetAlignElem) (xs : List TargetAlignElem) :
    tableWF (x :: xs) ↔ (∀ y ∈ xs, elemLt x y = true) ∧ tableWF xs :=
  List.pairwise_cons

theorem tableWF_insertOrUpdate {l : List TargetAlignElem} (elt : TargetAlignElem)
    (h : tableWF l) : tableWF (insertOrUpdate l elt) := by
  induction l with
  | nil =>
    rw [insertOrUpdate_nil]
    exact List.pairwise_singleton _ _
  | cons x xs ih =>
    obtain ⟨hx, hxs⟩ := (tableWF_cons_iff x xs).mp h
    rw [insertOrUpdate_cons]
    split
    · rename_i hlt
      refine (tableWF_cons_iff _ _).mpr ⟨?_, ih hxs⟩
      intro y hy
      rcases mem_insertOrUpdate hy with h' | h'
      · exact hx y h'
      · subst h'; exact hlt
    · split
      · rename_i hlt hkey
        refine (tableWF_cons_iff _ _).mpr ⟨?_, hxs⟩
        intro y hy
        rw [← (elemLt_key_congr x elt y hkey.1 hkey.2).1]
        exact hx y hy
      · rename_i hlt hkey
        have hex : elemLt elt x = true := elemLt_of_not_both hlt hkey
        refine (tableWF_cons_iff _ _).mpr ⟨?_, (tableWF_cons_iff _ _).mpr ⟨hx, hxs⟩⟩
        intro y hy
        rcases List.mem_cons.mp hy with h' | h'
        · subst h'; exact hex
        · exact elemLt_trans hex (hx y h')

/-- Does a record match the exact (kind, bit width) key? -/
def keyMatches (x : TargetAlignElem) (k : AlignTypeEnum) (w : Nat) : Bool :=
  x.AlignType == k && x.TypeBitWidth == w

theorem keyMatches_true_iff (x : TargetAlignElem) (k : AlignTypeEnum) (w : Nat) :
    keyMatches x k w = true ↔ (x.AlignType = k ∧ x.TypeBitWidth = w) := by
  simp [keyMatches]

theorem keyMatches_false_of (x : TargetAlignElem) (k : AlignTypeEnum) (w : Nat)
    (h : ¬ (k = x.AlignType ∧ w = x.TypeBitWidth)) : keyMatches x k w = false := by
  rw [← Bool.not_eq_true]
  intro hm
  obtain ⟨h1, h2⟩ := (keyMatches_true_iff _ _ _).mp hm
  exact h ⟨h1.symm, h2.symm⟩

/-- Lookup of the record with exactly the given (kind, bit width) key. -/
def getKey? (l : List TargetAlignElem) (k : AlignTypeEnum) (w : Nat) :
    Option TargetAlignElem :=
  l.find? (fun x => keyMatches x k w)

theorem getKey?_nil (k : AlignTypeEnum) (w : Nat) : getKey? [] k w = none := rfl

theorem getKey?_cons_of_match {x : TargetAlignElem} {k : AlignTypeEnum} {w : Nat}
    (xs : List TargetAlignElem) (h : keyMatches x k w = true) :
    getKey? (x :: xs) k w = some x := by
  simp only [getKey?]
  exact List.find?_cons_of_pos _ h

theorem getKey?_cons_of_not_match {x : TargetAlignElem} {k : AlignTypeEnum} {w : Nat}
    (xs : List TargetAlignElem) (h : keyMatches x k w = false) :
    getKey? (x :: xs) k w = getKey? xs k w := by
  simp only [getKey?]
  exact List.find?_cons_of_neg _ (by simp [h])

theorem getKey?_insertOrUpdate {l : List TargetAlignElem} (hWF : tableWF l)
    (elt : TargetAlignElem) (k : AlignTypeEnum) (w : Nat) :
    getKey? (insertOrUpdate l elt) k w =
      if k = elt.AlignType ∧ w = elt.TypeBitWidth then some elt
      else getKey? l k w := by
  induction l with
  | nil =>
    rw [insertOrUpdate_nil]
    by_cases hc : k = elt.AlignType ∧ w = elt.TypeBitWidth
    · rw [if_pos hc, getKey?_cons_of_match _
        ((keyMatches_true_iff _ _ _).mpr ⟨hc.1.symm, hc.2.symm⟩)]
    · rw [if_neg hc, getKey?_cons_of_not_match _ (keyMatches_false_of _ _ _ hc)]
  | cons x xs ih =>
    obtain ⟨hx, hxs⟩ := (tableWF_cons_iff x xs).mp hWF
    rw [insertOrUpdate_cons]
    split
    · rename_i hlt
      by_cases hpx : keyMatches x k w = true
      · obtain ⟨h1, h2⟩ := (keyMatches_true_iff _ _ _).mp hpx
        have hne : ¬ (k = elt.AlignType ∧ w = elt.TypeBitWidth) := by
          rintro ⟨h3, h4⟩
          exact elemLt_keys_ne hlt ⟨h1.trans h3, h2.trans h4⟩
        rw [if_neg hne, getKey?_cons_of_match _ hpx, getKey?_cons_of_match _ hpx]
      · have hpx' : keyMatches x k w = false := by simpa using hpx
        rw [getKey?_cons_of_not_match _ hpx', getKey?_cons_of_not_match _ hpx',
          ih hxs]
    · rename_i hlt
      split
      · rename_i hkey
        by_cases hc : k = elt.AlignType ∧ w = elt.TypeBitWidth
        · rw [if_pos hc, getKey?_cons_of_match _
            ((keyMatches_true_iff _ _ _).mpr ⟨hc.1.symm, hc.2.symm⟩)]
        · have hpe : keyMatches elt k w = false := keyMatches_false_of _ _ _ hc
          have hpx : keyMatches x k w = false := by
            apply keyMatches_false_of
            rintro ⟨h1, h2⟩
            exact hc ⟨h1.trans hkey.1, h2.trans hkey.2⟩
          rw [if_neg hc, getKey?_cons_of_not_match _ hpe,
            getKey?_cons_of_not_match _ hpx]
      · by_cases hc : k = elt.AlignType ∧ w = elt.TypeBitWidth
        · rw [if_pos hc, getKey?_cons_of_match _
            ((keyMatches_true_iff _ _ _).mpr ⟨hc.1.symm, hc.2.symm⟩)]
        · have hpe : keyMatches elt k w = false := keyMatches_false_of _ _ _ hc
          rw [if_neg hc, getKey?_cons_of_not_match _ hpe]

theorem getKey?_isSome_of_hasKey {l : List TargetAlignElem} {x : TargetAlignElem}
    (hx : x ∈ l) (k : AlignTypeEnum) (w : Nat) (h1 : x.AlignType = k)
    (h2 : x.TypeBitWidth = w) : ∃ y, getKey? l k w = some y := by
  induction l with
  | nil => cases hx
  | cons z zs ih =>
    by_cases hz : keyMatches z k w = true
    · exact ⟨z, getKey?_cons_of_match _ hz⟩
    · have hz' : keyMatches z k w = false := by simpa using hz
      rw [getKey?_cons_of_not_match _ hz']
      rcases List.mem_cons.mp hx with h' | h'
      · subst h'
        exact absurd ((keyMatches_true_iff _ _ _).mpr ⟨h1, h2⟩) hz
      · exact ih h'

theorem getKey?_mem {l : List TargetAlignElem} {x : TargetAlignElem}
    {k : AlignTypeEnum} {w : Nat} (h : getKey? l k w = some x) :
    x ∈ l ∧ x.AlignType = k ∧ x.TypeBitWidth = w := by
  have hm := List.mem_of_find?_eq_some h
  have hp := List.find?_some h
  exact ⟨hm, (keyMatches_true_iff _ _ _).mp hp⟩

theorem getKey?_tail_none {x : TargetAlignElem} {xs : List TargetAlignElem}
    (hWF : tableWF (x :: xs)) :
    getKey? xs x.AlignType x.TypeBitWidth = none := by
  obtain ⟨hx, _⟩ := (tableWF_cons_iff x xs).mp hWF
  apply List.find?_eq_none.mpr
  intro y hy hp
  obtain ⟨h1, h2⟩ := (keyMatches_true_iff _ _ _).mp hp
  exact elemLt_keys_ne (hx y hy) ⟨h1.symm, h2.symm⟩

theorem tableWF_ext {l1 : List TargetAlignElem} (hWF1 : tableWF l1) :
    ∀ l2, tableWF l2 → (∀ k w, getKey? l1 k w = getKey? l2 k w) → l1 = l2 := by
  induction l1 with
  | nil =>
    intro l2 hWF2 h
    cases l2 with
    | nil => rfl
    | cons y ys =>
      have hy := h y.AlignType y.TypeBitWidth
      rw [getKey?_nil, getKey?_cons_of_match _
        ((keyMatches_true_iff _ _ _).mpr ⟨rfl, rfl⟩)] at hy
      cases hy
  | cons x xs ih =>
    intro l2 hWF2 h
    cases l2 with
    | nil =>
      have hx := h x.AlignType x.TypeBitWidth
      rw [getKey?_nil, getKey?_cons_of_match _
        ((keyMatches_true_iff _ _ _).mpr ⟨rfl, rfl⟩)] at hx
      cases hx
    | cons y ys =>
      obtain ⟨hx1, hxs1⟩ := (tableWF_cons_iff x xs).mp hWF1
      obtain ⟨hy2, hys2⟩ := (tableWF_cons_iff y ys).mp hWF2
      have hxy : x = y := by
        have hyx := h y.AlignType y.TypeBitWidth
        rw [getKey?_cons_of_match ys
          ((keyMatches_true_iff _ _ _).mpr ⟨rfl, rfl⟩)] at hyx
        have hxg := h x.AlignType x.TypeBitWidth
        rw [getKey?_cons_of_match xs
          ((keyMatches_true_iff _ _ _).mpr ⟨rfl, rfl⟩)] at hxg
        by_cases hpx : keyMatches x y.AlignType y.TypeBitWidth = true
        · rw [getKey?_cons_of_match _ hpx] at hyx
          exact (Option.some_inj.mp hyx)
        · have hpx' : keyMatches x y.AlignType y.TypeBitWidth = false := by
            simpa using hpx
          rw [getKey?_cons_of_not_match _ hpx'] at hyx
          have hymem := (getKey?_mem hyx).1
          have h1 : elemLt x y = true := hx1 y hymem
          by_cases hpy : keyMatches y x.AlignType x.TypeBitWidth = true
          · obtain ⟨e1, e2⟩ := (keyMatches_true_iff _ _ _).mp hpy
            exact absurd ⟨e1.symm, e2.symm⟩ (elemLt_keys_ne h1)
          · have hpy' : keyMatches y x.AlignType x.TypeBitWidth = false := by
              simpa using hpy
            rw [getKey?_cons_of_not_match _ hpy'] at hxg
            have hxmem := (getKey?_mem hxg.symm).1
            have h2 : elemLt y x = true := hy2 x hxmem
            have h3 := elemLt_trans h1 h2
            rw [elemLt_irrefl] at h3
            cases h3
      subst hxy
      have htails : ∀ k w, getKey? xs k w = getKey? ys k w := by
        intro k w
        by_cases hpx : keyMatches x k w = true
        · obtain ⟨h1, h2⟩ := (keyMatches_true_iff _ _ _).mp hpx
          subst h1; subst h2
          rw [getKey?_tail_none hWF1, getKey?_tail_none hWF2]
        · have hpx' : keyMatches x k w = false := by simpa using hpx
          have := h k w
          rwa [getKey?_cons_of_not_match _ hpx',
            getKey?_cons_of_not_match _ hpx'] at this
      rw [ih hxs1 ys hys2 htails]

theorem takeWhile_length_lt {α : Type} (p : α → Bool) {l : List α} {x : α}
    (hx : x ∈ l) (hp : p x = false) : (l.takeWhile p).length < l.length := by
  induction l with
  | nil => cases hx
  | cons a as ih =>
    rw [List.takeWhile_cons]
    rcases List.mem_cons.mp hx with h' | h'
    · subst h'
      rw [hp]
      simp
    · split
      · simpa using ih h'
      · simp

theorem lowerBound_get_of_mem {l : List TargetAlignElem} (hWF : tableWF l)
    {x : TargetAlignElem} (hx : x ∈ l) (k : AlignTypeEnum) (w : Nat)
    (hk : x.AlignType = k) (hw : x.TypeBitWidth = w) :
    l.get? (lowerBound l ⟨k, 0, 0, w⟩) = some x := by
  induction l with
  | nil => cases hx
  | cons y ys ih =>
    obtain ⟨hy, hys⟩ := (tableWF_cons_iff y ys).mp hWF
    by_cases hlt : elemLt y ⟨k, 0, 0, w⟩ = true
    · have hxy : ¬ x = y := by
        intro he
        subst he
        exact elemLt_keys_ne hlt ⟨hk, hw⟩
      have hx' : x ∈ ys := by
        rcases List.mem_cons.mp hx with h' | h'
        · exact absurd h' hxy
        · exact h'
      have hlb : lowerBound (y :: ys) ⟨k, 0, 0, w⟩ = lowerBound ys ⟨k, 0, 0, w⟩ + 1 := by
        simp [lowerBound, List.takeWhile_cons, hlt]
      rw [hlb, List.get?_cons_succ]
      exact ih hys hx'
    · have hlb : lowerBound (y :: ys) ⟨k, 0, 0, w⟩ = 0 := by
        simp [lowerBound, List.takeWhile_cons, hlt]
      rw [hlb, List.get?_cons_zero]
      rcases List.mem_cons.mp hx with h' | h'
      · rw [h']
      · have h1 : elemLt y x = true := hy x h'
        have h2 : elemLt y ⟨k, 0, 0, w⟩ = true := by
          rw [(elemLt_key_congr x ⟨k, 0, 0, w⟩ y hk hw).2] at h1
          exact h1
        exact absurd h2 hlt

/-! Invariants of descriptors reachable through init. -/

theorem toU8_lt (i : Int) : toU8 i < 256 := by
  simp only [toU8]
  omega

theorem toU16_lt (i : Int) : toU16 i < 65536 := by
  simp only [toU16]
  omega

/-- A table key (kind, bit width) is present in the table. -/
def hasKey (l : List TargetAlignElem) (k : AlignTypeEnum) (w : Nat) : Prop :=
  ∃ x ∈ l, x.AlignType = k ∧ x.TypeBitWidth = w

theorem hasKey_insertOrUpdate {l : List TargetAlignElem} (elt : TargetAlignElem)
    {k : AlignTypeEnum} {w : Nat} (h : hasKey l k w) :
    hasKey (insertOrUpdate l elt) k w := by
  obtain ⟨x, hx, h1, h2⟩ := h
  induction l with
  | nil => cases hx
  | cons z zs ih =>
    rw [insertOrUpdate_cons]
    split
    · rcases List.mem_cons.mp hx with h' | h'
      · subst h'
        exact ⟨x, List.mem_cons_self _ _, h1, h2⟩
      · obtain ⟨y, hy1, hy2, hy3⟩ := ih h'
        exact ⟨y, List.mem_cons_of_mem _ hy1, hy2, hy3⟩
    · split
      · rename_i hkey2
        rcases List.mem_cons.mp hx with h' | h'
        · subst h'
          exact ⟨elt, List.mem_cons_self _ _, hkey2.1.symm.trans h1,
            hkey2.2.symm.trans h2⟩
        · exact ⟨x, List.mem_cons_of_mem _ h', h1, h2⟩
      · exact ⟨x, List.mem_cons_of_mem _ hx, h1, h2⟩

/-- The ten (kind, bit width) keys seeded by init's defaults. -/
def defaultKeys : List (AlignTypeEnum × Nat) :=
  [(.INTEGER_ALIGN, 1), (.INTEGER_ALIGN, 8), (.INTEGER_ALIGN, 16),
   (.INTEGER_ALIGN, 32), (.INTEGER_ALIGN, 64), (.FLOAT_ALIGN, 32),
   (.FLOAT_ALIGN, 64), (.PACKED_ALIGN, 64), (.PACKED_ALIGN, 128),
   (.AGGREGATE_ALIGN, 0)]

/-- Invariant of every descriptor reachable through init: a strictly
sorted table whose entries carry wrapped (u8/u16) values, with preferred
alignments that are 0 only when the ABI alignment is 0 too, pointer
parameters in u8 range with the same zero property, and all ten default
keys present. -/
def tdInv (td : TargetData) : Prop :=
  tableWF td.Alignments ∧
  (∀ e ∈ td.Alignments, e.ABIAlign < 256 ∧ e.PrefAlign < 256 ∧ e.TypeBitWidth < 65536) ∧
  (∀ e ∈ td.Alignments, e.PrefAlign = 0 → e.ABIAlign = 0) ∧
  td.PointerMemSize < 256 ∧ td.PointerABIAlign < 256 ∧ td.PointerPrefAlign < 256 ∧
  (td.PointerPrefAlign = 0 → td.PointerABIAlign = 0) ∧
  (∀ kw ∈ defaultKeys, hasKey td.Alignments kw.1 kw.2)

theorem tdInv_setAlignment {td : TargetData} (h : tdInv td)
    (align_type : AlignTypeEnum) (abi_align pref_align bit_width : Nat)
    (h1 : abi_align < 256) (h2 : pref_align < 256) (h3 : bit_width < 65536)
    (h4 : pref_align = 0 → abi_align = 0) :
    tdInv (setAlignment td align_type abi_align pref_align bit_width) := by
  obtain ⟨hWF, hB, hZ, hp1, hp2, hp3, hpz, hK⟩ := h
  refine ⟨tableWF_insertOrUpdate _ hWF, ?_, ?_, hp1, hp2, hp3, hpz, ?_⟩
  · intro e he
    rcases mem_insertOrUpdate he with h' | h'
    · exact hB e h'
    · subst h'
      exact ⟨h1, h2, h3⟩
  · intro e he
    rcases mem_insertOrUpdate he with h' | h'
    · exact hZ e h'
    · subst h'
      exact h4
  · intro kw hkw
    exact hasKey_insertOrUpdate _ (hK kw hkw)

theorem tdInv_processToken {td : TargetData} (h : tdInv td) (tok : List Char) :
    tdInv (processToken td tok) := by
  rw [processToken]
  cases harg : (getToken tok ':').1 with
  | nil => exact h
  | cons c cs =>
    by_cases hE : c = 'E'
    · simp only [hE, if_true]
      obtain ⟨hWF, hB, hZ, hp1, hp2, hp3, hpz, hK⟩ := h
      exact ⟨hWF, hB, hZ, hp1, hp2, hp3, hpz, hK⟩
    · simp only [hE, if_false]
      by_cases he : c = 'e'
      · simp only [he, if_true]
        obtain ⟨hWF, hB, hZ, hp1, hp2, hp3, hpz, hK⟩ := h
        exact ⟨hWF, hB, hZ, hp1, hp2, hp3, hpz, hK⟩
      · simp only [he, if_false]
        by_cases hp : c = 'p'
        · simp only [hp, if_true]
          obtain ⟨hWF, hB, hZ, hp1, hp2, hp3, hpz, hK⟩ := h
          refine ⟨hWF, hB, hZ, toU8_lt _, toU8_lt _, ?_, ?_, hK⟩
          · split
            · exact toU8_lt _
            · exact toU8_lt _
          · split
            · rename_i hz
              intro h0
              exact h0
            · rename_i hz
              intro h0
              exact absurd h0 hz
        · simp only [hp, if_false]
          by_cases hi : c = 'i' || c = 'v' || c = 'f' || c = 'a'
          · simp only [hi, if_true]
            apply tdInv_setAlignment h
            · exact toU8_lt _
            · split
              · exact toU8_lt _
              · exact toU8_lt _
            · exact toU16_lt _
            · split
              · rename_i hz
                intro h0
                exact h0
              · rename_i hz
                intro h0
                exact absurd h0 hz
          · simp only [hi, if_false]
            exact h

theorem parseLoop_preserves (P : TargetData → Prop)
    (hstep : ∀ td tok, P td → P (processToken td tok)) :
    ∀ (n : Nat) (temp : List Char) (td : TargetData),
      temp.length ≤ n → P td → P (parseLoop td temp) := by
  intro n
  induction n with
  | zero =>
    intro temp td hlen hP
    have hnil : temp = [] := List.eq_nil_of_length_eq_zero (by omega)
    subst hnil
    rw [parseLoop_nil]
    exact hP
  | succ n ih =>
    intro temp td hlen hP
    by_cases hnil : temp = []
    · subst hnil
      rw [parseLoop_nil]
      exact hP
    · rcases hgt : getToken temp '-' with ⟨tok, rest⟩
      rw [parseLoop_step td temp hnil hgt]
      apply ih
      · have := getToken_rest_length_lt temp '-' hnil
        rw [hgt] at this
        simp only at this
        omega
      · exact hstep td _ hP

theorem parseLoop_inv (P : TargetData → Prop)
    (hstep : ∀ td tok, P td → P (processToken td tok)) (temp : List Char)
    (td : TargetData) (h : P td) : P (parseLoop td temp) :=
  parseLoop_preserves P hstep temp.length temp td le_rfl h

theorem tdInv_fixupLong {td : TargetData} (h : tdInv td) : tdInv (fixupLong td) := by
  rw [fixupLong]
  split
  · split
    · exact tdInv_setAlignment h .INTEGER_ALIGN td.PointerMemSize
        td.PointerMemSize 64 h.2.2.2.1 h.2.2.2.1 (by norm_num) (fun h0 => h0)
    · exact h
  · exact h

theorem tdInv_fixupDouble {td : TargetData} (h : tdInv td) : tdInv (fixupDouble td) := by
  rw [fixupDouble]
  split
  · split
    · exact tdInv_setAlignment h .FLOAT_ALIGN td.PointerMemSize
        td.PointerMemSize 64 h.2.2.2.1 h.2.2.2.1 (by norm_num) (fun h0 => h0)
    · exact h
  · exact h

theorem tdInv_seed : tdInv (seedDefaults emptyTD) := by
  unfold tdInv tableWF hasKey
  decide

theorem init_tdInv (s : List Char) : tdInv (init s) := by
  rw [init]
  apply tdInv_fixupDouble
  apply tdInv_fixupLong
  exact parseLoop_inv tdInv (fun td tok h => tdInv_processToken h tok) s _ tdInv_seed

/-! Bounds: type-level alignments are unsigned char values. -/

theorem getAlignment_lt (t : Ty) : ∀ {td : TargetData} {b : Bool} {a : Nat},
    getAlignment td t b = some a → a < 256 := by
  cases t with
  | voidT =>
    intro td b a h
    simp only [getAlignment] at h
    rcases hs : getTypeSize td .voidT with _ | s <;> simp only [hs] at h
    · cases h
    · rcases he : getAlignmentEntry td .INTEGER_ALIGN (s * 8) with _ | e <;>
        simp only [he] at h
      · cases h
      · cases h
        omega
  | label =>
    intro td b a h
    simp only [getAlignment] at h
    cases h
    omega
  | integer bw =>
    intro td b a h
    simp only [getAlignment] at h
    rcases hs : getTypeSize td (.integer bw) with _ | s <;> simp only [hs] at h
    · cases h
    · rcases he : getAlignmentEntry td .INTEGER_ALIGN (s * 8) with _ | e <;>
        simp only [he] at h
      · cases h
      · cases h
        omega
  | floatT =>
    intro td b a h
    simp only [getAlignment] at h
    rcases hs : getTypeSize td .floatT with _ | s <;> simp only [hs] at h
    · cases h
    · rcases he : getAlignmentEntry td .FLOAT_ALIGN (s * 8) with _ | e <;>
        simp only [he] at h
      · cases h
      · cases h
        omega
  | doubleT =>
    intro td b a h
    simp only [getAlignment] at h
    rcases hs : getTypeSize td .doubleT with _ | s <;> simp only [hs] at h
    · cases h
    · rcases he : getAlignmentEntry td .FLOAT_ALIGN (s * 8) with _ | e <;>
        simp only [he] at h
      · cases h
      · cases h
        omega
  | pointer elt =>
    intro td b a h
    simp only [getAlignment] at h
    cases h
    omega
  | array elt n =>
    intro td b a h
    simp only [getAlignment] at h
    exact getAlignment_lt elt h
  | packed elt n =>
    intro td b a h
    simp only [getAlignment] at h
    rcases hs : getTypeSize td (.packed elt n) with _ | s <;> simp only [hs] at h
    · cases h
    · rcases he : getAlignmentEntry td .PACKED_ALIGN (s * 8) with _ | e <;>
        simp only [he] at h
      · cases h
      · cases h
        omega
  | structT elts =>
    intro td b a h
    simp only [getAlignment] at h
    rcases hL : structLayout td elts with _ | L <;> simp only [hL] at h
    · cases h
    · rcases he : getAlignmentEntry td .AGGREGATE_ALIGN 0 with _ | e <;>
        simp only [he] at h
      · cases h
      · cases h
        omega

theorem structLayoutFields_align_lt : ∀ (elts : List Ty) (td : TargetData)
    (sz al : Nat), al < 256 → ∀ (s a : Nat) (offs : List Nat),
    structLayoutFields td elts sz al = some (s, a, offs) → a < 256 := by
  intro elts
  induction elts with
  | nil =>
    intro td sz al hal s a offs h
    simp only [structLayoutFields] at h
    cases h
    exact hal
  | cons t rest ih =>
    intro td sz al hal s a offs h
    simp only [structLayoutFields] at h
    rcases hA : getAlignment td t true with _ | TyAlign <;> simp only [hA] at h
    · cases h
    · rcases hS : getTypeSize td t with _ | TySizeRaw <;> simp only [hS] at h
      · cases h
      · have hTA : TyAlign < 256 := getAlignment_lt t hA
        by_cases hz : TyAlign = 0
        · simp only [hz, if_true] at h
          cases h
        · rw [if_neg hz] at h
          split at h
          · rename_i s' a' offs' hrec
            cases h
            exact ih td _ _ (Nat.max_lt.mpr ⟨hTA, hal⟩) _ _ _ hrec
          · cases h

theorem structLayout_align_pos_lt {td : TargetData} {elts : List Ty}
    {L : StructLayout} (h : structLayout td elts = some L) :
    0 < L.StructAlignment ∧ L.StructAlignment < 256 := by
  simp only [structLayout] at h
  split at h
  · rename_i sz al offs hrec
    have hal : al < 256 := structLayoutFields_align_lt elts td 0 0 (by norm_num)
      _ _ _ hrec
    cases h
    by_cases hz : al = 0
    · simp [hz]
    · simp only [hz, if_false]
      omega
  · cases h

theorem if_lt_eq_max (x y : Nat) : (if x < y then y else x) = max x y := by
  by_cases h : x < y
  · rw [if_pos h]
    omega
  · rw [if_neg h]
    omega

/-- Claim C10 counterexample: the claim asserts the out-of-bounds branch is
unreachable even at the very first insertion into the empty table; but at
init's first default-seed call -- setAlignment(INTEGER, 1, 1, width 1) on
the empty Alignments vector of the freshly constructed descriptor -- the
equal_range lower bound equals the table length, so the position the code
dereferences is not a valid index. -/
theorem claim10_counterexample :
    lowerBound emptyTD.Alignments ⟨.INTEGER_ALIGN, 1, 1, 1⟩ =
      emptyTD.Alignments.length ∧
    ¬ (lowerBound emptyTD.Alignments ⟨.INTEGER_ALIGN, 1, 1, 1⟩ <
        emptyTD.Alignments.length) := by
  decide

/-- Claim C10 (amended): for every descriptor reachable through init, the
positions dereferenced by the table lookups the program performs -- any
(INTEGER/FLOAT/PACKED, width) query and the (AGGREGATE, 0) query -- are
valid indices into the alignments sequence, because the (AGGREGATE, 0)
record seeded by init is never removed and is at or after every such
search key; the insertion-side dereference in setAlignment, by contrast,
is out of bounds whenever the new key is greater than every stored record
(see the counterexample). -/
theorem claim10_theorem :
    ∀ (s : List Char) (kind : AlignTypeEnum) (bw : Nat),
      (kind = .AGGREGATE_ALIGN → bw % 65536 = 0) →
      lowerBound (init s).Alignments ⟨kind, 0, 0, bw % 65536⟩ <
        (init s).Alignments.length ∧
      (getAlignmentEntry (init s) kind bw).isSome = true := by
  intro s kind bw hk
  have hInv := init_tdInv s
  obtain ⟨e, he, he1, he2⟩ := hInv.2.2.2.2.2.2.2 (.AGGREGATE_ALIGN, 0)
    (by simp [defaultKeys])
  have hne : elemLt e ⟨kind, 0, 0, bw % 65536⟩ = false := by
    rw [← Bool.not_eq_true, elemLt_iff]
    have h3 : e.AlignType.toNat = 3 := by rw [he1]; rfl
    intro hcon
    rcases hcon with hlt | ⟨heq, hw⟩
    · rw [h3] at hlt
      cases kind <;> simp [AlignTypeEnum.toNat] at hlt
    · rw [h3] at heq
      have hagg : kind = .AGGREGATE_ALIGN := by
        cases kind <;> first | rfl | simp [AlignTypeEnum.toNat] at heq
      simp [he2, hk hagg] at hw
  have hlt := takeWhile_length_lt (fun x => elemLt x ⟨kind, 0, 0, bw % 65536⟩)
    he hne
  refine ⟨hlt, ?_⟩
  rw [getAlignmentEntry]
  cases hval : (init s).Alignments.get?
      (lowerBound (init s).Alignments ⟨kind, 0, 0, bw % 65536⟩) with
  | none =>
    rw [List.get?_eq_none] at hval
    have heq : lowerBound (init s).Alignments ⟨kind, 0, 0, bw % 65536⟩ =
        ((init s).Alignments.takeWhile
          (fun x => elemLt x ⟨kind, 0, 0, bw % 65536⟩)).length := rfl
    rw [heq] at hval
    omega
  | some x => rfl

/-- Claim C10 witness: the valid-lookup theorem applied to the default
descriptor at the (INTEGER, 24) query. -/
theorem claim10_witness :
    lowerBound (init []).Alignments ⟨.INTEGER_ALIGN, 0, 0, 24 % 65536⟩ <
      (init []).Alignments.length ∧
    (getAlignmentEntry (init []) .INTEGER_ALIGN 24).isSome = true :=
  claim10_theorem [] .INTEGER_ALIGN 24 (fun h => absurd h (by decide))

/-- Claim C3: for every descriptor built by init and every struct type, the
alignment the oracle returns for the struct in either flavor is the
corresponding alignment of the (AGGREGATE, 0) table entry unless that is
less than the layout's struct alignment, in which case it is the struct
alignment -- i.e. it equals max(entry alignment, struct alignment) and is
never below the alignment dictated by the fields. -/
theorem claim3_theorem :
    ∀ (s : List Char) (elts : List Ty) (which : Bool) (r : Nat),
      getAlignment (init s) (.structT elts) which = some r →
      ∃ (L : StructLayout) (e : TargetAlignElem),
        structLayout (init s) elts = some L ∧
        getAlignmentEntry (init s) .AGGREGATE_ALIGN 0 = some e ∧
        e.AlignType = .AGGREGATE_ALIGN ∧ e.TypeBitWidth = 0 ∧
        r = max (if which then e.ABIAlign else e.PrefAlign) L.StructAlignment ∧
        L.StructAlignment ≤ r := by
  intro s elts which r hr
  have hInv := init_tdInv s
  simp only [getAlignment] at hr
  rcases hL : structLayout (init s) elts with _ | L <;> simp only [hL] at hr
  · cases hr
  · rcases he : getAlignmentEntry (init s) .AGGREGATE_ALIGN 0 with _ | e <;>
      simp only [he] at hr
    · cases hr
    · have hmem : e ∈ (init s).Alignments := by
        rw [getAlignmentEntry] at he
        exact List.get?_mem he
      have hbound := hInv.2.1 e hmem
      have hLb := structLayout_align_pos_lt hL
      -- the record at the lower bound of (AGGREGATE, 0) is the seeded
      -- (AGGREGATE, 0) entry itself
      obtain ⟨x, hx, hx1, hx2⟩ := hInv.2.2.2.2.2.2.2 (.AGGREGATE_ALIGN, 0)
        (by simp [defaultKeys])
      have hexact := lowerBound_get_of_mem hInv.1 hx .AGGREGATE_ALIGN 0 hx1 hx2
      have hee : e = x := by
        rw [getAlignmentEntry] at he
        have h0 : (0 : Nat) % 65536 = 0 := by norm_num
        rw [h0] at he
        rw [he] at hexact
        exact Option.some_inj.mp hexact
      subst hee
      refine ⟨L, e, rfl, rfl, hx1, hx2, ?_, ?_⟩
      · cases which <;> simp only [Bool.false_eq_true, if_false, if_true] at hr ⊢
        · rw [if_lt_eq_max] at hr
          cases hr
          rw [Nat.mod_eq_of_lt (Nat.max_lt.mpr ⟨hbound.2.1, hLb.2⟩)]
        · rw [if_lt_eq_max] at hr
          cases hr
          rw [Nat.mod_eq_of_lt (Nat.max_lt.mpr ⟨hbound.1, hLb.2⟩)]
      · cases which <;> simp only [Bool.false_eq_true, if_false, if_true] at hr
        · rw [if_lt_eq_max] at hr
          cases hr
          have h1 := Nat.mod_le (max e.PrefAlign L.StructAlignment) 256
          rw [Nat.mod_eq_of_lt (Nat.max_lt.mpr ⟨hbound.2.1, hLb.2⟩)]
          exact Nat.le_max_right _ _
        · rw [if_lt_eq_max] at hr
          cases hr
          rw [Nat.mod_eq_of_lt (Nat.max_lt.mpr ⟨hbound.1, hLb.2⟩)]
          exact Nat.le_max_right _ _

/-- Claim C3 witness: the theorem applied to the default descriptor and the
struct with a single i8 field: the (AGGREGATE, 0) entry is (0, 0), the
layout's struct alignment is 1, and the returned ABI alignment is
max(0, 1) = 1. -/
theorem claim3_witness :
    getAlignment (init []) (.structT [.integer 8]) true = some 1 ∧
    ∃ (L : StructLayout) (e : TargetAlignElem),
      structLayout (init []) [.integer 8] = some L ∧
      getAlignmentEntry (init []) .AGGREGATE_ALIGN 0 = some e ∧
      e.AlignType = .AGGREGATE_ALIGN ∧ e.TypeBitWidth = 0 ∧
      1 = max (if true then e.ABIAlign else e.PrefAlign) L.StructAlignment ∧
      L.StructAlignment ≤ 1 := by
  have hcomp : getAlignment (init []) (.structT [.integer 8]) true = some 1 := by
    have h0 : init [] = tdDefault := rfl
    rw [h0, tdDefault_eq]
    simp [getAlignment, getTypeSize, structLayout, structLayoutFields,
      getAlignmentEntry, lowerBound, elemLt, AlignTypeEnum.toNat]
  exact ⟨hcomp, claim3_theorem [] [.integer 8] true 1 hcomp⟩

/-- Claim C8 counterexample: init is claimed to produce descriptors with
preferred alignment >= ABI alignment for every type, for every
configuration string; but the parser stores any explicit pair as given, so
init("i32:64:32") records ABI alignment 8 and preferred alignment 4 for
i32, and the oracle returns 8 and 4: the preferred alignment is below the
ABI alignment. -/
theorem claim8_counterexample :
    getAlignment (init "i32:64:32".toList) (.integer 32) true = some 8 ∧
    getAlignment (init "i32:64:32".toList) (.integer 32) false = some 4 ∧
    ¬ (4 : Nat) ≥ 8 := by
  have hg : getToken "i32:64:32".toList '-' = ("i32:64:32".toList, []) := by decide
  have h : init "i32:64:32".toList = ⟨false, 8, 8, 8,
      [⟨.INTEGER_ALIGN, 1, 1, 1⟩, ⟨.INTEGER_ALIGN, 1, 1, 8⟩,
       ⟨.INTEGER_ALIGN, 2, 2, 16⟩, ⟨.INTEGER_ALIGN, 8, 4, 32⟩,
       ⟨.INTEGER_ALIGN, 8, 8, 64⟩, ⟨.FLOAT_ALIGN, 4, 4, 32⟩,
       ⟨.FLOAT_ALIGN, 8, 8, 64⟩, ⟨.PACKED_ALIGN, 8, 8, 64⟩,
       ⟨.PACKED_ALIGN, 16, 16, 128⟩, ⟨.AGGREGATE_ALIGN, 0, 0, 0⟩]⟩ := by
    simp only [init]
    rw [parseLoop_step _ _ (by decide) hg, parseLoop_nil]
    decide
  rw [h]
  refine ⟨?_, ?_, by norm_num⟩ <;>
    simp [getAlignment, getTypeSize, getAlignmentEntry, lowerBound, elemLt,
      AlignTypeEnum.toNat]

/-- Claim C8 (amended): the oracle preserves entrywise alignment
monotonicity: for every descriptor whose alignment-table entries all have
ABI alignment at most the preferred alignment (with both in unsigned-char
range, as init always stores them) and whose pointer alignments satisfy
the same, the preferred alignment returned for any type is at least the
ABI alignment returned for it.  (The default seed satisfies the entry
condition; a configuration string that explicitly sets a preferred
alignment below an ABI alignment, as in the counterexample, does not.) -/
theorem claim8_theorem (td : TargetData)
    (hE : ∀ e ∈ td.Alignments,
      e.ABIAlign ≤ e.PrefAlign ∧ e.ABIAlign < 256 ∧ e.PrefAlign < 256)
    (hP : td.PointerABIAlign ≤ td.PointerPrefAlign ∧
      td.PointerABIAlign < 256 ∧ td.PointerPrefAlign < 256) :
    ∀ (t : Ty) (a p : Nat), getAlignment td t true = some a →
      getAlignment td t false = some p → a ≤ p := by
  intro t
  cases t with
  | label =>
    intro a p hA hPr
    simp only [getAlignment] at hA hPr
    cases hA
    cases hPr
    simp only [if_true, Bool.false_eq_true, if_false]
    rw [Nat.mod_eq_of_lt hP.2.1, Nat.mod_eq_of_lt hP.2.2]
    exact hP.1
  | pointer elt =>
    intro a p hA hPr
    simp only [getAlignment] at hA hPr
    cases hA
    cases hPr
    simp only [if_true, Bool.false_eq_true, if_false]
    rw [Nat.mod_eq_of_lt hP.2.1, Nat.mod_eq_of_lt hP.2.2]
    exact hP.1
  | array elt n =>
    intro a p hA hPr
    simp only [getAlignment] at hA hPr
    exact claim8_theorem td hE hP elt a p hA hPr
  | structT elts =>
    intro a p hA hPr
    simp only [getAlignment] at hA hPr
    rcases hL : structLayout td elts with _ | L <;> simp only [hL] at hA hPr
    · cases hA
    · rcases he : getAlignmentEntry td .AGGREGATE_ALIGN 0 with _ | e <;>
        simp only [he] at hA hPr
      · cases hA
      · have hmem : e ∈ td.Alignments := by
          rw [getAlignmentEntry] at he
          exact List.get?_mem he
        have hb := hE e hmem
        have hLb := structLayout_align_pos_lt hL
        simp only [if_true, Bool.false_eq_true, if_false] at hA hPr
        cases hA
        cases hPr
        rw [if_lt_eq_max, if_lt_eq_max,
          Nat.mod_eq_of_lt (Nat.max_lt.mpr ⟨hb.2.1, hLb.2⟩),
          Nat.mod_eq_of_lt (Nat.max_lt.mpr ⟨hb.2.2, hLb.2⟩)]
        exact max_le_max hb.1 (le_refl _)
  | integer bw =>
    intro a p hA hPr
    simp only [getAlignment] at hA hPr
    rcases hs : getTypeSize td (.integer bw) with _ | s <;>
      simp only [hs] at hA hPr
    · cases hA
    · rcases he : getAlignmentEntry td .INTEGER_ALIGN (s * 8) with _ | e <;>
        simp only [he] at hA hPr
      · cases hA
      · have hb := hE e (by rw [getAlignmentEntry] at he; exact List.get?_mem he)
        cases hA
        cases hPr
        simp only [if_true, Bool.false_eq_true, if_false]
        rw [Nat.mod_eq_of_lt hb.2.1, Nat.mod_eq_of_lt hb.2.2]
        exact hb.1
  | voidT =>
    intro a p hA hPr
    simp only [getAlignment] at hA hPr
    rcases hs : getTypeSize td .voidT with _ | s <;> simp only [hs] at hA hPr
    · cases hA
    · rcases he : getAlignmentEntry td .INTEGER_ALIGN (s * 8) with _ | e <;>
        simp only [he] at hA hPr
      · cases hA
      · have hb := hE e (by rw [getAlignmentEntry] at he; exact List.get?_mem he)
        cases hA
        cases hPr
        simp only [if_true, Bool.false_eq_true, if_false]
        rw [Nat.mod_eq_of_lt hb.2.1, Nat.mod_eq_of_lt hb.2.2]
        exact hb.1
  | floatT =>
    intro a p hA hPr
    simp only [getAlignment] at hA hPr
    rcases hs : getTypeSize td .floatT with _ | s <;> simp only [hs] at hA hPr
    · cases hA
    · rcases he : getAlignmentEntry td .FLOAT_ALIGN (s * 8) with _ | e <;>
        simp only [he] at hA hPr
      · cases hA
      · have hb := hE e (by rw [getAlignmentEntry] at he; exact List.get?_mem he)
        cases hA
        cases hPr
        simp only [if_true, Bool.false_eq_true, if_false]
        rw [Nat.mod_eq_of_lt hb.2.1, Nat.mod_eq_of_lt hb.2.2]
        exact hb.1
  | doubleT =>
    intro a p hA hPr
    simp only [getAlignment] at hA hPr
    rcases hs : getTypeSize td .doubleT with _ | s <;> simp only [hs] at hA hPr
    · cases hA
    · rcases he : getAlignmentEntry td .FLOAT_ALIGN (s * 8) with _ | e <;>
        simp only [he] at hA hPr
      · cases hA
      · have hb := hE e (by rw [getAlignmentEntry] at he; exact List.get?_mem he)
        cases hA
        cases hPr
        simp only [if_true, Bool.false_eq_true, if_false]
        rw [Nat.mod_eq_of_lt hb.2.1, Nat.mod_eq_of_lt hb.2.2]
        exact hb.1
  | packed elt n =>
    intro a p hA hPr
    simp only [getAlignment] at hA hPr
    rcases hs : getTypeSize td (.packed elt n) with _ | s <;>
      simp only [hs] at hA hPr
    · cases hA
    · rcases he : getAlignmentEntry td .PACKED_ALIGN (s * 8) with _ | e <;>
        simp only [he] at hA hPr
      · cases hA
      · have hb := hE e (by rw [getAlignmentEntry] at he; exact List.get?_mem he)
        cases hA
        cases hPr
        simp only [if_true, Bool.false_eq_true, if_false]
        rw [Nat.mod_eq_of_lt hb.2.1, Nat.mod_eq_of_lt hb.2.2]
        exact hb.1

/-- Claim C8 witness: the amended theorem applied to the default
descriptor (whose ten entries all satisfy ABI <= preferred) at the type
double, where both alignments are 8. -/
theorem claim8_witness :
    getAlignment (init []) .doubleT true = some 8 ∧
    getAlignment (init []) .doubleT false = some 8 ∧ (8 : Nat) ≤ 8 := by
  have h0 : init [] = tdDefault := rfl
  have hA : getAlignment (init []) .doubleT true = some 8 := by
    rw [h0, tdDefault_eq]
    simp [getAlignment, getTypeSize, getAlignmentEntry, lowerBound, elemLt,
      AlignTypeEnum.toNat]
  have hPr : getAlignment (init []) .doubleT false = some 8 := by
    rw [h0, tdDefault_eq]
    simp [getAlignment, getTypeSize, getAlignmentEntry, lowerBound, elemLt,
      AlignTypeEnum.toNat]
  refine ⟨hA, hPr, ?_⟩
  exact claim8_theorem (init [])
    (by rw [h0, tdDefault_eq]; decide)
    (by rw [h0, tdDefault_eq]; decide)
    .doubleT 8 8 hA hPr

/-- Claim C9 counterexample: the claim says that after init on a string
with a malformed (non-numeric) field the prior/default values stand, the
descriptor behaving as if the malformed parts were absent; but
init("i32:x") stores ABI and preferred alignment 0 for (INTEGER, 32)
(atoi("x") = 0, divided by 8), overwriting the default (4, 4): the
resulting descriptor differs from the default one. -/
theorem claim9_counterexample :
    getAlignmentEntry (init "i32:x".toList) .INTEGER_ALIGN 32 =
      some ⟨.INTEGER_ALIGN, 0, 0, 32⟩ ∧
    getAlignmentEntry (init []) .INTEGER_ALIGN 32 =
      some ⟨.INTEGER_ALIGN, 4, 4, 32⟩ ∧
    ¬ init "i32:x".toList = init [] := by
  have hg : getToken "i32:x".toList '-' = ("i32:x".toList, []) := by decide
  have h1 : init "i32:x".toList = ⟨false, 8, 8, 8,
      [⟨.INTEGER_ALIGN, 1, 1, 1⟩, ⟨.INTEGER_ALIGN, 1, 1, 8⟩,
       ⟨.INTEGER_ALIGN, 2, 2, 16⟩, ⟨.INTEGER_ALIGN, 0, 0, 32⟩,
       ⟨.INTEGER_ALIGN, 8, 8, 64⟩, ⟨.FLOAT_ALIGN, 4, 4, 32⟩,
       ⟨.FLOAT_ALIGN, 8, 8, 64⟩, ⟨.PACKED_ALIGN, 8, 8, 64⟩,
       ⟨.PACKED_ALIGN, 16, 16, 128⟩, ⟨.AGGREGATE_ALIGN, 0, 0, 0⟩]⟩ := by
    simp only [init]
    rw [parseLoop_step _ _ (by decide) hg, parseLoop_nil]
    decide
  have h2 : init [] = tdDefault := rfl
  rw [h1, h2, tdDefault_eq]
  refine ⟨by decide, by decide, by decide⟩

/-- Claim C9 (amended): parsing is total and surfaces no error: a token
whose leading character is unknown (not E/e/p/i/v/f/a) is silently skipped,
leaving the descriptor unchanged, and a field with no leading digits
parses via atoi to 0; that 0 is then stored like any other value,
overwriting the default (the default survives only where the code treats 0
specially: a zero preferred alignment falls back to the ABI alignment, and
a zero i64/f64 ABI alignment falls back to the pointer size). -/
theorem claim9_theorem :
    (∀ (td : TargetData) (tok : List Char),
      (match (getToken tok ':').1 with
       | [] => True
       | c :: _ => ¬ c ∈ (['E', 'e', 'p', 'i', 'v', 'f', 'a'] : List Char)) →
      processToken td tok = td) ∧
    (∀ s : List Char,
      (match s.dropWhile isCSpace with
       | [] => True
       | c :: _ => c ≠ '-' ∧ c ≠ '+' ∧ c.isDigit = false) →
      atoi s = 0) := by
  constructor
  · intro td tok h
    rw [processToken]
    cases harg : (getToken tok ':').1 with
    | nil => rfl
    | cons c cs =>
      rw [harg] at h
      simp only [List.mem_cons, List.not_mem_nil, or_false, not_or] at h
      obtain ⟨hE, he, hp, hi, hv, hf, ha⟩ := h
      simp [hE, he, hp, hi, hv, hf, ha]
  · intro s h
    rw [atoi]
    cases hd : s.dropWhile isCSpace with
    | nil => rfl
    | cons c r =>
      rw [hd] at h
      obtain ⟨h1, h2, h3⟩ := h
      split
      · rename_i r' heq
        cases heq
        exact absurd rfl h1
      · rename_i r' heq
        cases heq
        exact absurd rfl h2
      · rename_i hne1 hne2
        rw [List.takeWhile_cons_of_neg (by simp [h3])]
        rfl

/-- Claim C9 witness: the amended theorem applied to the unknown-leading
token z32:8 (the default descriptor is unchanged) and to the non-numeric
field x (atoi returns 0). -/
theorem claim9_witness :
    processToken (init []) "z32:8".toList = init [] ∧ atoi "x".toList = 0 :=
  ⟨claim9_theorem.1 (init []) "z32:8".toList
    (show ¬ 'z' ∈ (['E', 'e', 'p', 'i', 'v', 'f', 'a'] : List Char) by decide),
   claim9_theorem.2 "x".toList
    (show 'x' ≠ '-' ∧ 'x' ≠ '+' ∧ Char.isDigit 'x' = false by decide)⟩

/-! Claims C1/C2: the struct layout and array size invariants.  The source
truncates each field size through `(unsigned)` casts; to state the
no-overflow hypotheses we also define the ideal-arithmetic variant of the
layout computation (identical recursion, no 2^32/2^64 wrapping) and prove
that the two agree whenever nothing wraps. -/

/-- Ideal-arithmetic variant of structLayoutFields: the same field walk
with unbounded integers (no `(unsigned)` truncation of the field size and
no uint64_t wrap).  Field sizes and alignments still come from the real
oracle. -/
def structLayoutFieldsM (td : TargetData) :
    List Ty → Nat → Nat → Option (Nat × Nat × List Nat)
  | [], StructSize, StructAlignment => some (StructSize, StructAlignment, [])
  | t :: rest, StructSize, StructAlignment =>
    match getAlignment td t true, getTypeSize td t with
    | some TyAlign, some TySize =>
      if TyAlign = 0 then none
      else
        let padded :=
          if StructSize % TyAlign ≠ 0 then (StructSize / TyAlign + 1) * TyAlign
          else StructSize
        match structLayoutFieldsM td rest (padded + TySize) (max TyAlign StructAlignment) with
        | some (s, a, offs) => some (s, a, padded :: offs)
        | none => none
    | _, _ => none

/-- Ideal-arithmetic variant of structLayout. -/
def structLayoutM (td : TargetData) (elts : List Ty) : Option StructLayout :=
  match structLayoutFieldsM td elts 0 0 with
  | some (size, align, offs) =>
    let salign := if align = 0 then 1 else align
    some ⟨if size % salign ≠ 0 then (size / salign + 1) * salign else size,
          salign, offs⟩
  | none => none

theorem padded_dvd (s al : Nat) :
    (if s % al ≠ 0 then (s / al + 1) * al else s) % al = 0 := by
  by_cases hz : s % al = 0
  · simp [hz]
  · simp only [hz, ne_eq, not_false_eq_true, if_true]
    exact Nat.mul_mod_left _ _

theorem padded_ge (s al : Nat) (h : al ≠ 0) :
    s ≤ (if s % al ≠ 0 then (s / al + 1) * al else s) := by
  by_cases hz : s % al = 0
  · simp [hz]
  · simp only [hz, ne_eq, not_false_eq_true, if_true]
    have h1 : al * (s / al) + s % al = s := Nat.div_add_mod s al
    have h2 : s % al < al := Nat.mod_lt s (by omega)
    have h3 : (s / al + 1) * al = s / al * al + al := by
      rw [Nat.add_mul, one_mul]
    have h4 : al * (s / al) = s / al * al := Nat.mul_comm _ _
    omega

theorem fieldsM_spec : ∀ (elts : List Ty) (td : TargetData) (sz al : Nat)
    (S A : Nat) (offs : List Nat),
    structLayoutFieldsM td elts sz al = some (S, A, offs) →
    offs.length = elts.length ∧ sz ≤ S ∧ al ≤ A ∧
    (∀ i t, elts.get? i = some t →
      ∃ off ta ts, offs.get? i = some off ∧
        getAlignment td t true = some ta ∧ getTypeSize td t = some ts ∧
        ta ≠ 0 ∧ off % ta = 0 ∧ sz ≤ off ∧ ta ≤ A ∧
        (match offs.get? (i + 1) with
         | some off2 => off + ts ≤ off2
         | none => off + ts ≤ S)) := by
  intro elts
  induction elts with
  | nil =>
    intro td sz al S A offs h
    simp only [structLayoutFieldsM] at h
    cases h
    refine ⟨rfl, le_refl _, le_refl _, ?_⟩
    intro i t ht
    simp at ht
  | cons t rest ih =>
    intro td sz al S A offs h
    simp only [structLayoutFieldsM] at h
    rcases hA : getAlignment td t true with _ | ta <;> simp only [hA] at h
    · cases h
    · rcases hS : getTypeSize td t with _ | ts <;> simp only [hS] at h
      · cases h
      · by_cases hz : ta = 0
        · simp only [hz, if_true] at h
          cases h
        · rw [if_neg hz] at h
          split at h
          · rename_i S' A' offs' hrec
            cases h
            obtain ⟨hlen, hsz, hal, hper⟩ := ih td _ _ _ _ _ hrec
            have hpadge : sz ≤ (if sz % ta ≠ 0 then (sz / ta + 1) * ta else sz) :=
              padded_ge sz ta hz
            have hpaddvd := padded_dvd sz ta
            refine ⟨by simp [hlen], ?_, ?_, ?_⟩
            · calc sz ≤ (if sz % ta ≠ 0 then (sz / ta + 1) * ta else sz) := hpadge
                _ ≤ (if sz % ta ≠ 0 then (sz / ta + 1) * ta else sz) + ts := by omega
                _ ≤ S := hsz
            · calc al ≤ max ta al := Nat.le_max_right _ _
                _ ≤ A := hal
            · intro i tI htI
              cases i with
              | zero =>
                simp only [List.get?_cons_zero] at htI
                cases htI
                refine ⟨_, ta, ts, List.get?_cons_zero, hA, hS, hz, hpaddvd,
                  hpadge, le_trans (Nat.le_max_left _ _) hal, ?_⟩
                simp only [List.get?_cons_succ]
                cases hrest : rest with
                | nil =>
                  have : offs' = [] := by
                    rw [hrest] at hlen
                    exact List.eq_nil_of_length_eq_zero hlen
                  rw [this]
                  simp only [List.get?_nil]
                  rw [hrest] at hrec
                  simp only [structLayoutFieldsM] at hrec
                  cases hrec
                  exact le_refl _
                | cons t0 rest0 =>
                  have hlen0 : 0 < offs'.length := by
                    rw [hlen, hrest]
                    simp
                  rcases hoffs0 : offs'.get? 0 with _ | off0
                  · rw [List.get?_eq_none] at hoffs0
                    omega
                  · obtain ⟨off', ta', ts', hoff', _, _, _, _, hszoff', _, _⟩ :=
                      hper 0 t0 (by rw [hrest]; rfl)
                    rw [hoffs0] at hoff'
                    cases hoff'
                    exact hszoff'
              | succ j =>
                simp only [List.get?_cons_succ] at htI
                obtain ⟨off, ta', ts', hoff, hA', hS', hz', hdvd', hszoff, htaA,
                  hnext⟩ := hper j tI htI
                refine ⟨off, ta', ts', by simpa using hoff, hA', hS', hz', hdvd',
                  ?_, htaA, by simpa using hnext⟩
                calc sz ≤ (if sz % ta ≠ 0 then (sz / ta + 1) * ta else sz) + ts := by
                      have := hpadge
                      omega
                  _ ≤ off := hszoff
          · cases h

theorem fieldsM_head_zero {td : TargetData} {t : Ty} {rest : List Ty}
    {S A : Nat} {offs : List Nat}
    (h : structLayoutFieldsM td (t :: rest) 0 0 = some (S, A, offs)) :
    offs.get? 0 = some 0 := by
  simp only [structLayoutFieldsM] at h
  rcases hA : getAlignment td t true with _ | ta <;> simp only [hA] at h
  · cases h
  · rcases hS : getTypeSize td t with _ | ts <;> simp only [hS] at h
    · cases h
    · by_cases hz : ta = 0
      · simp only [hz, if_true] at h
        cases h
      · rw [if_neg hz] at h
        simp only [Nat.zero_mod, ne_eq, not_true_eq_false, if_false] at h
        split at h
        · cases h
          rfl
        · cases h

theorem fields_eq_fieldsM : ∀ (elts : List Ty) (td : TargetData)
    (sz al S A : Nat) (offs : List Nat),
    structLayoutFieldsM td elts sz al = some (S, A, offs) →
    S < 2 ^ 64 →
    (∀ t ∈ elts, ∀ ts, getTypeSize td t = some ts → ts < 2 ^ 32) →
    structLayoutFields td elts sz al = some (S, A, offs) := by
  intro elts
  induction elts with
  | nil =>
    intro td sz al S A offs h h64 hsmall
    simp only [structLayoutFieldsM] at h
    simp only [structLayoutFields]
    exact h
  | cons t rest ih =>
    intro td sz al S A offs h h64 hsmall
    simp only [structLayoutFieldsM] at h
    rcases hA : getAlignment td t true with _ | ta <;> simp only [hA] at h
    · cases h
    · rcases hS : getTypeSize td t with _ | ts <;> simp only [hS] at h
      · cases h
      · by_cases hz : ta = 0
        · simp only [hz, if_true] at h
          cases h
        · rw [if_neg hz] at h
          split at h
          · rename_i S' A' offs' hrec
            cases h
            obtain ⟨_, hsz, _, _⟩ := fieldsM_spec rest td _ _ _ _ _ hrec
            have hpadlt : (if sz % ta ≠ 0 then (sz / ta + 1) * ta else sz) < 2 ^ 64 := by
              omega
            have hpadeq :
                (if sz % ta ≠ 0 then (sz / ta + 1) * ta % 2 ^ 64 else sz) =
                  (if sz % ta ≠ 0 then (sz / ta + 1) * ta else sz) := by
              by_cases hc : sz % ta = 0
              · simp [hc]
              · simp only [hc, ne_eq, not_false_eq_true, if_true]
                apply Nat.mod_eq_of_lt
                simp only [hc, ne_eq, not_false_eq_true, if_true] at hpadlt
                exact hpadlt
            have htseq : ts % 2 ^ 32 = ts :=
              Nat.mod_eq_of_lt (hsmall t (List.mem_cons_self _ _) ts hS)
            have hreal := ih td
              ((if sz % ta ≠ 0 then (sz / ta + 1) * ta else sz) + ts)
              (max ta al) S A offs' hrec h64
              (fun t' ht' => hsmall t' (List.mem_cons_of_mem _ ht'))
            simp only [structLayoutFields, hA, hS]
            rw [if_neg hz]
            simp only [htseq, hpadeq]
            rw [Nat.mod_eq_of_lt (show
              (if sz % ta ≠ 0 then (sz / ta + 1) * ta else sz) + ts < 2 ^ 64 by
                omega)]
            rw [hreal]
          · cases h

theorem structLayout_eq_M (td : TargetData) (elts : List Ty) (M : StructLayout)
    (hM : structLayoutM td elts = some M) (h64 : M.StructSize < 2 ^ 64)
    (hsmall : ∀ t ∈ elts, ∀ ts, getTypeSize td t = some ts → ts < 2 ^ 32) :
    structLayout td elts = some M := by
  simp only [structLayoutM] at hM
  split at hM
  · rename_i size align offs hrec
    cases hM
    have hsal : (if align = 0 then 1 else align) ≠ 0 := by
      by_cases hc : align = 0 <;> simp [hc]
    have hs_le : size ≤
        (if size % (if align = 0 then 1 else align) ≠ 0 then
          (size / (if align = 0 then 1 else align) + 1) *
            (if align = 0 then 1 else align)
        else size) := padded_ge _ _ hsal
    simp only at h64
    have hS64 : size < 2 ^ 64 := by omega
    have hreal := fields_eq_fieldsM elts td 0 0 size align offs hrec hS64 hsmall
    simp only [structLayout, hreal]
    by_cases hc : size % (if align = 0 then 1 else align) = 0
    · simp only [hc, ne_eq, not_true_eq_false, if_false] at h64 ⊢
    · simp only [hc, ne_eq, not_false_eq_true, if_true] at h64 ⊢
      rw [Nat.mod_eq_of_lt h64]
  · cases hM

/-- Claim C1 counterexample: the StructLayout constructor stores each field
size through an `(unsigned)` cast (TySize = (unsigned) TD.getTypeSize(Ty),
line 54), so a field of 2^32 bytes -- the array [4294967296 x i8] --
contributes 0 to the running size: in the struct { [4294967296 x i8], i8 }
the second member offset is 0, violating the claimed
member_offsets[1] >= member_offsets[0] + size_bytes(field 0). -/
theorem claim1_counterexample :
    structLayout (init []) [.array (.integer 8) (2 ^ 32), .integer 8] =
      some ⟨1, 1, [0, 0]⟩ ∧
    getTypeSize (init []) (.array (.integer 8) (2 ^ 32)) = some (2 ^ 32) ∧
    ¬ (∀ (i : Nat) (t : Ty) (s off off2 : Nat),
        ([Ty.array (.integer 8) (2 ^ 32), Ty.integer 8] : List Ty).get? i = some t →
        getTypeSize (init []) t = some s →
        ([0, 0] : List Nat).get? i = some off →
        ([0, 0] : List Nat).get? (i + 1) = some off2 →
        off + s ≤ off2) := by
  have h0 : init [] = tdDefault := rfl
  have h1 : structLayout (init []) [.array (.integer 8) (2 ^ 32), .integer 8] =
      some ⟨1, 1, [0, 0]⟩ := by
    rw [h0, tdDefault_eq]
    simp [structLayout, structLayoutFields, getTypeSize, getAlignment,
      getAlignmentEntry, lowerBound, elemLt, AlignTypeEnum.toNat]
  have h2 : getTypeSize (init []) (.array (.integer 8) (2 ^ 32)) =
      some (2 ^ 32) := by
    rw [h0, tdDefault_eq]
    simp [getTypeSize, getAlignment, getAlignmentEntry, lowerBound, elemLt,
      AlignTypeEnum.toNat]
  refine ⟨h1, h2, ?_⟩
  intro hall
  have := hall 0 (.array (.integer 8) (2 ^ 32)) (2 ^ 32) 0 0 rfl h2 rfl rfl
  omega

/-- Claim C1 (amended): for every descriptor and struct type whose field
sizes each fit in 32 bits and whose ideal (untruncated) layout size stays
below 2^64 -- so that none of the source's (unsigned)/uint64_t wraps
fire -- the StructLayout satisfies the claimed invariants: the layout
equals the ideal one, member_offsets[0] = 0, member_offsets[i] is a
multiple of field i's ABI alignment, member_offsets[i+1] is at least
member_offsets[i] + size_bytes(field i), and struct_size_bytes is a
multiple of struct_alignment_bytes. -/
theorem claim1_theorem :
    ∀ (td : TargetData) (elts : List Ty) (L M : StructLayout),
      structLayout td elts = some L →
      structLayoutM td elts = some M →
      M.StructSize < 2 ^ 64 →
      (∀ t ∈ elts, ∀ ts, getTypeSize td t = some ts → ts < 2 ^ 32) →
      L = M ∧
      (elts ≠ [] → L.MemberOffsets.get? 0 = some 0) ∧
      (∀ (i : Nat) (t : Ty) (a : Nat), elts.get? i = some t →
        getAlignment td t true = some a →
        ∃ off, L.MemberOffsets.get? i = some off ∧ off % a = 0) ∧
      (∀ (i : Nat) (t : Ty) (s off off2 : Nat), elts.get? i = some t →
        getTypeSize td t = some s →
        L.MemberOffsets.get? i = some off →
        L.MemberOffsets.get? (i + 1) = some off2 →
        off + s ≤ off2) ∧
      L.StructSize % L.StructAlignment = 0 := by
  intro td elts L M hL hM h64 hsmall
  have hLM : L = M := by
    have := structLayout_eq_M td elts M hM h64 hsmall
    rw [hL] at this
    exact Option.some_inj.mp this
  subst hLM
  refine ⟨rfl, ?_, ?_, ?_, ?_⟩
  · intro hne
    cases helts : elts with
    | nil => exact absurd helts hne
    | cons t rest =>
      simp only [structLayoutM] at hM
      split at hM
      · rename_i size align offs hrec
        cases hM
        rw [helts] at hrec
        exact fieldsM_head_zero hrec
      · cases hM
  · intro i t a hti hta
    simp only [structLayoutM] at hM
    split at hM
    · rename_i size align offs hrec
      cases hM
      obtain ⟨_, _, _, hper⟩ := fieldsM_spec elts td 0 0 _ _ _ hrec
      obtain ⟨off, ta, ts, hoff, hta', _, _, hdvd, _, _, _⟩ := hper i t hti
      rw [hta] at hta'
      cases hta'
      exact ⟨off, hoff, hdvd⟩
    · cases hM
  · intro i t s off off2 hti hts hoff hoff2
    simp only [structLayoutM] at hM
    split at hM
    · rename_i size align offs hrec
      cases hM
      obtain ⟨_, _, _, hper⟩ := fieldsM_spec elts td 0 0 _ _ _ hrec
      obtain ⟨off', ta, ts', hoff', _, hts', _, _, _, _, hnext⟩ := hper i t hti
      simp only at hoff hoff2
      rw [hoff] at hoff'
      cases hoff'
      rw [hts] at hts'
      cases hts'
      rw [hoff2] at hnext
      exact hnext
    · cases hM
  · simp only [structLayoutM] at hM
    split at hM
    · rename_i size align offs hrec
      cases hM
      simp only
      exact padded_dvd _ _
    · cases hM

/-- Claim C1 witness: the amended theorem applied to the default descriptor
and the struct { i8, i32, i8 }: layout offsets [0, 4, 8], size 12,
alignment 4, with all hypotheses discharged concretely. -/
theorem claim1_witness :
    structLayout (init []) [.integer 8, .integer 32, .integer 8] =
      some ⟨12, 4, [0, 4, 8]⟩ ∧
    structLayoutM (init []) [.integer 8, .integer 32, .integer 8] =
      some ⟨12, 4, [0, 4, 8]⟩ ∧
    (([Ty.integer 8, Ty.integer 32, Ty.integer 8] : List Ty) ≠ [] →
      (StructLayout.mk 12 4 [0, 4, 8]).MemberOffsets.get? 0 = some 0) ∧
    (StructLayout.mk 12 4 [0, 4, 8]).StructSize %
      (StructLayout.mk 12 4 [0, 4, 8]).StructAlignment = 0 := by
  have h0 : init [] = tdDefault := rfl
  have hsz8 : getTypeSize (init []) (.integer 8) = some 1 := by
    rw [h0, tdDefault_eq]
    simp [getTypeSize]
  have hsz32 : getTypeSize (init []) (.integer 32) = some 4 := by
    rw [h0, tdDefault_eq]
    simp [getTypeSize]
  have hL : structLayout (init []) [.integer 8, .integer 32, .integer 8] =
      some ⟨12, 4, [0, 4, 8]⟩ := by
    rw [h0, tdDefault_eq]
    simp [structLayout, structLayoutFields, getTypeSize, getAlignment,
      getAlignmentEntry, lowerBound, elemLt, AlignTypeEnum.toNat]
  have hM : structLayoutM (init []) [.integer 8, .integer 32, .integer 8] =
      some ⟨12, 4, [0, 4, 8]⟩ := by
    rw [h0, tdDefault_eq]
    simp [structLayoutM, structLayoutFieldsM, getTypeSize, getAlignment,
      getAlignmentEntry, lowerBound, elemLt, AlignTypeEnum.toNat]
  have hsmall : ∀ t ∈ ([Ty.integer 8, Ty.integer 32, Ty.integer 8] : List Ty),
      ∀ ts, getTypeSize (init []) t = some ts → ts < 2 ^ 32 := by
    intro t ht ts hts
    rcases List.mem_cons.mp ht with h' | h'
    · subst h'
      rw [hsz8] at hts
      cases hts
      norm_num
    · rcases List.mem_cons.mp h' with h'' | h''
      · subst h''
        rw [hsz32] at hts
        cases hts
        norm_num
      · rcases List.mem_cons.mp h'' with h3 | h3
        · subst h3
          rw [hsz8] at hts
          cases hts
          norm_num
        · cases h3
  have h := claim1_theorem (init []) [.integer 8, .integer 32, .integer 8]
    ⟨12, 4, [0, 4, 8]⟩ ⟨12, 4, [0, 4, 8]⟩ hL hM (by norm_num) hsmall
  exact ⟨hL, hM, h.2.1, h.2.2.2.2⟩

/-- Claim C2 counterexample: getTypeSize stores the rounded element stride
in an `unsigned` local (line 433), so for the element type
[4294967296 x i8] (size 2^32, alignment 1) the stride truncates to 0 and
the array [1 x [4294967296 x i8]] gets size 0 instead of the claimed
1 * round_up(2^32, 1) = 2^32. -/
theorem claim2_counterexample :
    getTypeSize (init []) (.array (.array (.integer 8) (2 ^ 32)) 1) = some 0 ∧
    getTypeSize (init []) (.array (.integer 8) (2 ^ 32)) = some (2 ^ 32) ∧
    getAlignment (init []) (.array (.integer 8) (2 ^ 32)) true = some 1 ∧
    ¬ (0 : Nat) = 1 * ((2 ^ 32 + 1 - 1) / 1 * 1) := by
  have h0 : init [] = tdDefault := rfl
  refine ⟨?_, ?_, ?_, by norm_num⟩ <;>
    (rw [h0, tdDefault_eq];
     simp [getTypeSize, getAlignment, getAlignmentEntry, lowerBound, elemLt,
       AlignTypeEnum.toNat])

/-- Claim C2 (amended): for every sized element type and count, as long as
the stride round_up(size, abi_align) fits in 32 bits and the total fits in
64 bits (so the source's `unsigned AlignedSize` truncation and uint64_t
product do not wrap), the size of [n x T] is n * round_up(size_bytes(T),
abi_align(T)), the element alignment is nonzero, and the stride is at
least the element size. -/
theorem claim2_theorem :
    ∀ (td : TargetData) (elt : Ty) (n v s a : Nat),
      getTypeSize td (.array elt n) = some v →
      getTypeSize td elt = some s →
      getAlignment td elt true = some a →
      (s + a - 1) / a * a < 2 ^ 32 →
      (s + a - 1) / a * a * n < 2 ^ 64 →
      a ≠ 0 ∧ v = n * ((s + a - 1) / a * a) ∧ s ≤ (s + a - 1) / a * a := by
  intro td elt n v s a hv hs ha h32 h64
  simp only [getTypeSize] at hv
  simp only [hs, ha] at hv
  by_cases hz : a = 0
  · rw [hz] at hv
    simp at hv
  · rw [if_neg hz] at hv
    cases hv
    refine ⟨hz, ?_, ?_⟩
    · rw [Nat.mod_eq_of_lt h32, Nat.mod_eq_of_lt h64]
      exact Nat.mul_comm _ _
    · have h1 : a * ((s + a - 1) / a) + (s + a - 1) % a = s + a - 1 :=
        Nat.div_add_mod _ _
      have h2 : (s + a - 1) % a < a := Nat.mod_lt _ (by omega)
      have h3 : (s + a - 1) / a * a = a * ((s + a - 1) / a) := Nat.mul_comm _ _
      omega

/-- Claim C2 witness: the amended theorem applied to the default descriptor
and [3 x i32]: size 12 = 3 * round_up(4, 4). -/
theorem claim2_witness :
    getTypeSize (init []) (.array (.integer 32) 3) = some 12 ∧
    (12 : Nat) = 3 * ((4 + 4 - 1) / 4 * 4) ∧ (4 : Nat) ≤ (4 + 4 - 1) / 4 * 4 := by
  have h0 : init [] = tdDefault := rfl
  have hv : getTypeSize (init []) (.array (.integer 32) 3) = some 12 := by
    rw [h0, tdDefault_eq]
    simp [getTypeSize, getAlignment, getAlignmentEntry, lowerBound, elemLt,
      AlignTypeEnum.toNat]
  have hs : getTypeSize (init []) (.integer 32) = some 4 := by
    rw [h0, tdDefault_eq]
    simp [getTypeSize]
  have ha : getAlignment (init []) (.integer 32) true = some 4 := by
    rw [h0, tdDefault_eq]
    simp [getAlignment, getTypeSize, getAlignmentEntry, lowerBound, elemLt,
      AlignTypeEnum.toNat]
  have h := claim2_theorem (init []) (.integer 32) 3 12 4 4 hv hs ha
    (by norm_num) (by norm_num)
  exact ⟨hv, h.2.1, h.2.2⟩

/-! Claim C5: the indexed-offset resolver. -/

/-- A constant integer index operand (ConstantInt): bit width of its type
and unsigned value. -/
structure ConstIdx where
  width : Nat
  val : Nat
deriving DecidableEq, Repr

/-- Models ConstantInt::getSExtValue: the value interpreted as a signed
integer of its width. -/
def sextVal (i : ConstIdx) : Int :=
  if i.val < 2 ^ (i.width - 1) then (i.val : Int) else (i.val : Int) - 2 ^ i.width

/-- Wrap an integer into the uint64_t range, as the running Result does. -/
def u64wrap (i : Int) : Nat := (i % (2 ^ 64)).toNat

/-- Models the loop of TargetData::getIndexedOffset (lines 583-606): for a
struct the index must be a constant 32-bit integer (assert line 587); its
zero-extended value selects the field whose layout offset is added and
whose type becomes current.  Otherwise the current type is cast to
SequentialType (pointer, array or packed; assert-failure otherwise),
descended to its element type, and the sign-extended index times that
element size is added to the uint64_t result.  The int64_t product and
uint64_t accumulation wrap modulo 2^64. -/
def gepLoop (td : TargetData) : Ty → List ConstIdx → Nat → Option Nat
  | _, [], Result => some Result
  | t, idx :: rest, Result =>
    match t with
    | .structT elts =>
      if idx.width = 32 then
        match structLayout td elts, elts.get? idx.val with
        | some Layout, some ft =>
          match Layout.MemberOffsets.get? idx.val with
          | some off => gepLoop td ft rest ((Result + off) % 2 ^ 64)
          | none => none
        | _, _ => none
      else none
    | .pointer elt =>
      match getTypeSize td elt with
      | some sz =>
        gepLoop td elt rest (u64wrap ((Result : Int) + sextVal idx * (sz : Int)))
      | none => none
    | .array elt _ =>
      match getTypeSize td elt with
      | some sz =>
        gepLoop td elt rest (u64wrap ((Result : Int) + sextVal idx * (sz : Int)))
      | none => none
    | .packed elt _ =>
      match getTypeSize td elt with
      | some sz =>
        gepLoop td elt rest (u64wrap ((Result : Int) + sextVal idx * (sz : Int)))
      | none => none
    | _ => none

/-- Models TargetData::getIndexedOffset (lines 577-609): requires a pointer
type (assert line 580) and walks the indices starting from Result = 0. -/
def getIndexedOffset (td : TargetData) (ptrTy : Ty) (Indices : List ConstIdx) :
    Option Nat :=
  match ptrTy with
  | .pointer _ => gepLoop td ptrTy Indices 0
  | _ => none

/-- Definition following the words of claim C5 (spec section 4.6): the list
of per-step byte contributions of the walk -- at a struct step the selected
member offset, at a pointer/sequential step the signed index times the size
of the element type descended into. -/
def indexedOffsetSteps (td : TargetData) : Ty → List ConstIdx → Option (List Int)
  | _, [] => some []
  | cur, idx :: rest =>
    match cur with
    | .structT flds =>
      if idx.width = 32 then
        match structLayout td flds, flds.get? idx.val with
        | some L, some ft =>
          match L.MemberOffsets.get? idx.val with
          | some off => (indexedOffsetSteps td ft rest).map (fun cs => (off : Int) :: cs)
          | none => none
        | _, _ => none
      else none
    | .pointer elt =>
      match getTypeSize td elt with
      | some sz =>
        (indexedOffsetSteps td elt rest).map (fun cs => sextVal idx * (sz : Int) :: cs)
      | none => none
    | .array elt _ =>
      match getTypeSize td elt with
      | some sz =>
        (indexedOffsetSteps td elt rest).map (fun cs => sextVal idx * (sz : Int) :: cs)
      | none => none
    | .packed elt _ =>
      match getTypeSize td elt with
      | some sz =>
        (indexedOffsetSteps td elt rest).map (fun cs => sextVal idx * (sz : Int) :: cs)
      | none => none
    | _ => none

/-- Definition following the words of claim C5: the byte offset is the sum
of the per-step contributions, starting from 0, taken in uint64_t
arithmetic; only pointer base types are legal. -/
def indexedOffsetSpec (td : TargetData) (ptrTy : Ty) (idxs : List ConstIdx) :
    Option Nat :=
  match ptrTy with
  | .pointer _ =>
    (indexedOffsetSteps td ptrTy idxs).map (fun cs => (cs.sum % (2 ^ 64)).toNat)
  | _ => none

theorem u64wrap_lt (i : Int) : u64wrap i < 2 ^ 64 := by
  simp only [u64wrap]
  omega

theorem u64wrap_cast (i : Int) : ((u64wrap i : Nat) : Int) = i % (2 ^ 64) := by
  simp only [u64wrap]
  exact Int.toNat_of_nonneg (Int.emod_nonneg i (by norm_num))

theorem gepLoop_eq_steps : ∀ (idxs : List ConstIdx) (td : TargetData) (t : Ty)
    (acc : Nat), acc < 2 ^ 64 →
    gepLoop td t idxs acc =
      (indexedOffsetSteps td t idxs).map
        (fun cs => (((acc : Int) + cs.sum) % (2 ^ 64)).toNat) := by
  intro idxs
  induction idxs with
  | nil =>
    intro td t acc hacc
    simp only [gepLoop, indexedOffsetSteps, Option.map_some', Option.some_inj,
      List.sum_nil, Int.add_zero]
    omega
  | cons idx rest ih =>
    intro td t acc hacc
    cases t with
    | structT elts =>
      by_cases hw : idx.width = 32
      · rcases hL : structLayout td elts with _ | L
        · simp [gepLoop, indexedOffsetSteps, hw, hL]
        · rcases hf : elts.get? idx.val with _ | ft
          · simp only [gepLoop, indexedOffsetSteps, hw, hL, hf, if_true,
              Option.map_none']
          · rcases ho : L.MemberOffsets.get? idx.val with _ | off
            · simp only [gepLoop, indexedOffsetSteps, hw, hL, hf, ho, if_true,
                Option.map_none']
            · simp only [gepLoop, indexedOffsetSteps, hw, hL, hf, ho, if_true]
              rw [ih td ft ((acc + off) % 2 ^ 64) (Nat.mod_lt _ (by norm_num))]
              cases hsteps : indexedOffsetSteps td ft rest with
              | none => rfl
              | some cs =>
                simp only [Option.map_some', Option.some_inj, List.sum_cons]
                congr 1
                rw [Int.natCast_mod]
                push_cast
                omega
      · simp [gepLoop, indexedOffsetSteps, hw]
    | pointer elt =>
      rcases hs : getTypeSize td elt with _ | sz
      · simp [gepLoop, indexedOffsetSteps, hs]
      · simp only [gepLoop, indexedOffsetSteps, hs]
        rw [ih td elt _ (u64wrap_lt _)]
        cases hsteps : indexedOffsetSteps td elt rest with
        | none => rfl
        | some cs =>
          simp only [Option.map_some', Option.some_inj, List.sum_cons]
          congr 1
          rw [u64wrap_cast]
          omega
    | array elt n =>
      rcases hs : getTypeSize td elt with _ | sz
      · simp [gepLoop, indexedOffsetSteps, hs]
      · simp only [gepLoop, indexedOffsetSteps, hs]
        rw [ih td elt _ (u64wrap_lt _)]
        cases hsteps : indexedOffsetSteps td elt rest with
        | none => rfl
        | some cs =>
          simp only [Option.map_some', Option.some_inj, List.sum_cons]
          congr 1
          rw [u64wrap_cast]
          omega
    | packed elt n =>
      rcases hs : getTypeSize td elt with _ | sz
      · simp [gepLoop, indexedOffsetSteps, hs]
      · simp only [gepLoop, indexedOffsetSteps, hs]
        rw [ih td elt _ (u64wrap_lt _)]
        cases hsteps : indexedOffsetSteps td elt rest with
        | none => rfl
        | some cs =>
          simp only [Option.map_some', Option.some_inj, List.sum_cons]
          congr 1
          rw [u64wrap_cast]
          omega
    | voidT => rfl
    | label => rfl
    | integer bw => rfl
    | floatT => rfl
    | doubleT => rfl

/-- Claim C5: getIndexedOffset computes, for a pointer base type, exactly the
sum (in uint64_t arithmetic, starting from 0) of the per-step contributions:
at a pointer/sequential step the sign-extended index times the element size,
at a struct step (index required to be a 32-bit constant) the selected
member's layout offset, with the walk descending into the element/field type
at each step.  Concretely, on the default descriptor, resolving indices
[1 (i64), 1 (i32)] from a pointer to { i16, i64 } yields
1 * sizeof(struct) + offset-of-field-1 = 16 + 8 = 24. -/
theorem claim5_theorem :
    (∀ (td : TargetData) (ptrTy : Ty) (idxs : List ConstIdx),
        getIndexedOffset td ptrTy idxs = indexedOffsetSpec td ptrTy idxs) ∧
    getIndexedOffset (init []) (.pointer (.structT [.integer 16, .integer 64]))
      [⟨64, 1⟩, ⟨32, 1⟩] = some 24 := by
  constructor
  · intro td ptrTy idxs
    cases ptrTy with
    | pointer elt =>
      simp only [getIndexedOffset, indexedOffsetSpec]
      rw [gepLoop_eq_steps idxs td (.pointer elt) 0 (by norm_num)]
      simp
    | voidT => rfl
    | label => rfl
    | integer bw => rfl
    | floatT => rfl
    | doubleT => rfl
    | array elt n => rfl
    | packed elt n => rfl
    | structT elts => rfl
  · have h0 : init [] = tdDefault := rfl
    rw [h0, tdDefault_eq]
    simp [getIndexedOffset, gepLoop, sextVal, u64wrap, getTypeSize,
      structLayout, structLayoutFields, getAlignment, getAlignmentEntry,
      lowerBound, elemLt, AlignTypeEnum.toNat]

/-! Claim C4: the print/parse round trip.  Machinery: decimal rendering
round-trips through atoi, the printed string tokenizes back into the
endianness, pointer and per-record tokens, each token re-stores the printed
values, and re-inserting a sorted table into the default seed rebuilds the
same table. -/

/-- Value accumulated by folding the decimal digits of n after a prefix
value a, mirroring the digit order of natReprAux. -/
def pushNum (a n : Nat) : Nat :=
  if n < 10 then a * 10 + n else pushNum a (n / 10) * 10 + n % 10
termination_by n
decreasing_by exact Nat.div_lt_self (by omega) (by omega)

theorem pushNum_zero (n : Nat) : pushNum 0 n = n := by
  induction n using Nat.strong_induction_on with
  | _ n ih =>
    rw [pushNum]
    by_cases h : n < 10
    · rw [if_pos h]
      omega
    · rw [if_neg h, ih (n / 10) (Nat.div_lt_self (by omega) (by omega))]
      omega

theorem toNat_ofNat_digit (m : Nat) (h : m < 10) :
    (Char.ofNat (48 + m)).toNat = 48 + m := by
  interval_cases m <;> decide

theorem isDigit_ofNat_digit (m : Nat) (h : m < 10) :
    (Char.ofNat (48 + m)).isDigit = true := by
  interval_cases m <;> decide

theorem natReprAux_ne_nil (n : Nat) : ∀ acc, natReprAux n acc ≠ [] := by
  induction n using Nat.strong_induction_on with
  | _ n ih =>
    intro acc
    rw [natReprAux]
    by_cases h : n < 10
    · rw [dif_pos h]
      simp
    · rw [dif_neg h]
      exact ih (n / 10) (Nat.div_lt_self (by omega) (by omega)) _

theorem natRepr_ne_nil (n : Nat) : natRepr n ≠ [] := natReprAux_ne_nil n []

theorem natReprAux_digits (n : Nat) : ∀ (acc : List Char),
    (∀ c ∈ acc, c.isDigit = true) → ∀ c ∈ natReprAux n acc, c.isDigit = true := by
  induction n using Nat.strong_induction_on with
  | _ n ih =>
    intro acc hacc c hc
    rw [natReprAux] at hc
    by_cases h : n < 10
    · rw [dif_pos h] at hc
      rcases List.mem_cons.mp hc with h1 | h1
      · subst h1
        exact isDigit_ofNat_digit n h
      · exact hacc c h1
    · rw [dif_neg h] at hc
      refine ih (n / 10) (Nat.div_lt_self (by omega) (by omega)) _ ?_ c hc
      intro c1 hc1
      rcases List.mem_cons.mp hc1 with h1 | h1
      · subst h1
        exact isDigit_ofNat_digit _ (Nat.mod_lt _ (by omega))
      · exact hacc c1 h1

theorem natRepr_digits (n : Nat) : ∀ c ∈ natRepr n, c.isDigit = true :=
  natReprAux_digits n [] (by intro c h; cases h)

theorem digit_ne_of_not_digit {c d : Char} (h : c.isDigit = true)
    (hd : d.isDigit = false) : c ≠ d := by
  intro he
  subst he
  rw [h] at hd
  cases hd

theorem digit_not_dash {c : Char} (h : c.isDigit = true) : (c == '-') = false := by
  have := digit_ne_of_not_digit h (show Char.isDigit '-' = false by decide)
  simpa using this

theorem digit_not_colon {c : Char} (h : c.isDigit = true) : (c == ':') = false := by
  have := digit_ne_of_not_digit h (show Char.isDigit ':' = false by decide)
  simpa using this

theorem digit_not_space {c : Char} (h : c.isDigit = true) : isCSpace c = false := by
  by_contra hne
  rw [Bool.not_eq_false] at hne
  simp only [isCSpace, Bool.or_eq_true, decide_eq_true_eq] at hne
  rcases hne with ((((rfl | rfl) | rfl) | rfl) | rfl) | rfl <;>
    exact absurd h (by decide)

theorem foldl_step_natReprAux (n : Nat) : ∀ (acc : List Char) (a : Nat),
    (natReprAux n acc).foldl (fun a c => a * 10 + (c.toNat - Char.toNat '0')) a =
      acc.foldl (fun a c => a * 10 + (c.toNat - Char.toNat '0')) (pushNum a n) := by
  induction n using Nat.strong_induction_on with
  | _ n ih =>
    intro acc a
    rw [natReprAux, pushNum]
    by_cases h : n < 10
    · rw [dif_pos h, if_pos h, List.foldl_cons, toNat_ofNat_digit n h]
      have h0 : Char.toNat '0' = 48 := rfl
      rw [h0]
      congr 2
      omega
    · rw [dif_neg h, if_neg h,
        ih (n / 10) (Nat.div_lt_self (by omega) (by omega)), List.foldl_cons,
        toNat_ofNat_digit _ (Nat.mod_lt _ (by omega))]
      have h0 : Char.toNat '0' = 48 := rfl
      rw [h0]
      congr 2
      omega

theorem digitsVal_natRepr (n : Nat) : digitsVal (natRepr n) = n := by
  simp only [digitsVal, natRepr]
  rw [foldl_step_natReprAux n [] 0, List.foldl_nil, pushNum_zero]

theorem takeWhile_all {α : Type} (p : α → Bool) : ∀ (l : List α),
    (∀ c ∈ l, p c = true) → l.takeWhile p = l := by
  intro l
  induction l with
  | nil => intro _; rfl
  | cons a as ih =>
    intro h
    rw [List.takeWhile_cons_of_pos (h a (by simp)),
      ih (fun c hc => h c (by simp [hc]))]

theorem dropWhile_all {α : Type} (p : α → Bool) : ∀ (l : List α),
    (∀ c ∈ l, p c = true) → l.dropWhile p = [] := by
  intro l
  induction l with
  | nil => intro _; rfl
  | cons a as ih =>
    intro h
    rw [List.dropWhile_cons_of_pos (h a (by simp)),
      ih (fun c hc => h c (by simp [hc]))]

theorem takeWhile_append_stop {α : Type} (p : α → Bool) (c : α) (post : List α)
    (hc : p c = false) : ∀ (pre : List α), (∀ x ∈ pre, p x = true) →
    (pre ++ c :: post).takeWhile p = pre := by
  intro pre
  induction pre with
  | nil =>
    intro _
    rw [List.nil_append, List.takeWhile_cons_of_neg (by simp [hc])]
  | cons a as ih =>
    intro h
    rw [List.cons_append, List.takeWhile_cons_of_pos (h a (by simp)),
      ih (fun x hx => h x (by simp [hx]))]

theorem dropWhile_append_stop {α : Type} (p : α → Bool) (c : α) (post : List α)
    (hc : p c = false) : ∀ (pre : List α), (∀ x ∈ pre, p x = true) →
    (pre ++ c :: post).dropWhile p = c :: post := by
  intro pre
  induction pre with
  | nil =>
    intro _
    rw [List.nil_append, List.dropWhile_cons_of_neg (by simp [hc])]
  | cons a as ih =>
    intro h
    rw [List.cons_append, List.dropWhile_cons_of_pos (h a (by simp)),
      ih (fun x hx => h x (by simp [hx]))]

theorem atoi_natRepr (n : Nat) : atoi (natRepr n) = (n : Int) := by
  rcases hnr : natRepr n with _ | ⟨c, cs⟩
  · exact absurd hnr (natRepr_ne_nil n)
  · have hall : ∀ x ∈ c :: cs, x.isDigit = true := by
      rw [← hnr]
      exact natRepr_digits n
    have hcd : c.isDigit = true := hall c (by simp)
    have hsp : isCSpace c = false := digit_not_space hcd
    simp only [atoi]
    rw [List.dropWhile_cons_of_neg (by simp [hsp])]
    have htw : (c :: cs).takeWhile Char.isDigit = c :: cs := takeWhile_all _ _ hall
    split
    · rename_i r heq
      have : c = Char.ofNat 45 := (List.cons.injEq _ _ _ _).mp heq |>.1
      exact absurd this (digit_ne_of_not_digit hcd (by decide))
    · rename_i r heq
      have : c = Char.ofNat 43 := (List.cons.injEq _ _ _ _).mp heq |>.1
      exact absurd this (digit_ne_of_not_digit hcd (by decide))
    · rw [htw, ← hnr, digitsVal_natRepr]

theorem getToken_split (pre post : List Char) (d : Char) (hne : pre ≠ [])
    (hfree : ∀ c ∈ pre, (c == d) = false) :
    getToken (pre ++ d :: post) d = (pre, d :: post) := by
  cases pre with
  | nil => exact absurd rfl hne
  | cons c0 pre1 =>
    have h0 : (c0 == d) = false := hfree c0 (by simp)
    simp only [getToken]
    rw [List.cons_append, List.dropWhile_cons_of_neg (by simp [h0]),
      ← List.cons_append,
      takeWhile_append_stop _ d post (by simp) _ (fun x hx => by simp [hfree x hx]),
      dropWhile_append_stop _ d post (by simp) _ (fun x hx => by simp [hfree x hx])]

theorem getToken_full (s : List Char) (d : Char) (hne : s ≠ [])
    (hfree : ∀ c ∈ s, (c == d) = false) : getToken s d = (s, []) := by
  cases s with
  | nil => exact absurd rfl hne
  | cons c0 s1 =>
    simp only [getToken]
    rw [List.dropWhile_cons_of_neg (by simp [hfree c0 (by simp)]),
      takeWhile_all _ _ (fun x hx => by simp [hfree x hx]),
      dropWhile_all _ _ (fun x hx => by simp [hfree x hx])]

theorem getToken_cons_self (s : List Char) (d : Char) :
    getToken (d :: s) d = getToken s d := by
  simp only [getToken]
  rw [List.dropWhile_cons_of_pos (by simp)]

theorem processToken_nil (td : TargetData) : processToken td [] = td := rfl

theorem parseLoop_dash (td : TargetData) (s : List Char) :
    parseLoop td ('-' :: s) = parseLoop td s := by
  by_cases hnil : s = []
  · subst hnil
    have hg : getToken ['-'] '-' = ([], []) := rfl
    rw [parseLoop_step td ['-'] (by simp) hg, parseLoop_nil, parseLoop_nil,
      processToken_nil]
  · rcases hgt : getToken s '-' with ⟨tok, rest⟩
    have hg2 : getToken ('-' :: s) '-' = (tok, rest) := by
      rw [getToken_cons_self]
      exact hgt
    rw [parseLoop_step td ('-' :: s) (by simp) hg2, parseLoop_step td s hnil hgt]

theorem parseLoop_token (td : TargetData) (tok rest : List Char) (hne : tok ≠ [])
    (hfree : ∀ c ∈ tok, (c == '-') = false) :
    parseLoop td (tok ++ '-' :: rest) = parseLoop (processToken td tok) rest := by
  have hne2 : ¬ (tok ++ '-' :: rest) = [] := by simp
  rw [parseLoop_step td _ hne2 (getToken_split tok rest '-' hne hfree),
    parseLoop_dash]

theorem parseLoop_single (td : TargetData) (tok : List Char) (hne : tok ≠ [])
    (hfree : ∀ c ∈ tok, (c == '-') = false) :
    parseLoop td tok = processToken td tok := by
  rw [parseLoop_step td tok hne (getToken_full tok '-' hne hfree), parseLoop_nil]

theorem toU8_of_lt {n : Nat} (h : n < 256) : toU8 (n : Int) = n := by
  simp only [toU8]
  omega

theorem toU16_of_lt {n : Nat} (h : n < 65536) : toU16 (n : Int) = n := by
  simp only [toU16]
  omega

theorem tdiv_castMul8 (a : Nat) : Int.tdiv ((a * 8 : Nat) : Int) 8 = (a : Int) := by
  have h : Int.tdiv ((a * 8 : Nat) : Int) 8 = ((a * 8 / 8 : Nat) : Int) := rfl
  have h2 : a * 8 / 8 = a := by omega
  rw [h, h2]

theorem processToken_E (td : TargetData) :
    processToken td ['E'] = { td with LittleEndian := false } := rfl

theorem processToken_e (td : TargetData) :
    processToken td ['e'] = { td with LittleEndian := true } := rfl

theorem processToken_p (td : TargetData) (a b c : Nat)
    (ha : a < 256) (hb : b < 256) (hc : c < 256) (hz : c = 0 → b = 0) :
    processToken td ('p' :: ':' :: (natRepr (a * 8) ++ ':' ::
        (natRepr (b * 8) ++ ':' :: natRepr (c * 8)))) =
      { td with PointerMemSize := a, PointerABIAlign := b,
                PointerPrefAlign := c } := by
  have hfa := natRepr_digits (a * 8)
  have hfb := natRepr_digits (b * 8)
  have hfc := natRepr_digits (c * 8)
  have h1 : getToken ('p' :: ':' :: (natRepr (a * 8) ++ ':' ::
      (natRepr (b * 8) ++ ':' :: natRepr (c * 8)))) ':' =
      (['p'], ':' :: (natRepr (a * 8) ++ ':' ::
        (natRepr (b * 8) ++ ':' :: natRepr (c * 8)))) := by
    have h := getToken_split ['p'] (natRepr (a * 8) ++ ':' ::
      (natRepr (b * 8) ++ ':' :: natRepr (c * 8))) ':' (by simp)
      (by intro x hx; simp at hx; subst hx; decide)
    simpa only [List.cons_append, List.nil_append] using h
  have h2 : getToken (':' :: (natRepr (a * 8) ++ ':' ::
      (natRepr (b * 8) ++ ':' :: natRepr (c * 8)))) ':' =
      (natRepr (a * 8), ':' :: (natRepr (b * 8) ++ ':' :: natRepr (c * 8))) := by
    rw [getToken_cons_self]
    exact getToken_split _ _ ':' (natRepr_ne_nil _)
      (fun x hx => digit_not_colon (hfa x hx))
  have h3 : getToken (':' :: (natRepr (b * 8) ++ ':' :: natRepr (c * 8))) ':' =
      (natRepr (b * 8), ':' :: natRepr (c * 8)) := by
    rw [getToken_cons_self]
    exact getToken_split _ _ ':' (natRepr_ne_nil _)
      (fun x hx => digit_not_colon (hfb x hx))
  have h4 : getToken (':' :: natRepr (c * 8)) ':' = (natRepr (c * 8), []) := by
    rw [getToken_cons_self]
    exact getToken_full _ ':' (natRepr_ne_nil _)
      (fun x hx => digit_not_colon (hfc x hx))
  simp only [processToken, h1, h2, h3, h4, atoi_natRepr, tdiv_castMul8]
  rw [if_neg (by decide), if_neg (by decide), if_pos trivial,
    toU8_of_lt ha, toU8_of_lt hb, toU8_of_lt hc]
  by_cases hc0 : c = 0
  · subst hc0
    rw [if_pos rfl, hz rfl]
  · rw [if_neg hc0]

theorem kindChar_ne_colon (k : AlignTypeEnum) : (k.kindChar == ':') = false := by
  cases k <;> decide

theorem kindChar_ne_dash (k : AlignTypeEnum) : (k.kindChar == '-') = false := by
  cases k <;> decide

theorem getToken_dump (e : TargetAlignElem) :
    getToken (dumpElem e) ':' =
      (e.AlignType.kindChar :: natRepr e.TypeBitWidth,
       ':' :: (natRepr (e.ABIAlign * 8) ++ ':' :: natRepr (e.PrefAlign * 8))) := by
  have hshape : dumpElem e = (e.AlignType.kindChar :: natRepr e.TypeBitWidth) ++
      ':' :: (natRepr (e.ABIAlign * 8) ++ ':' :: natRepr (e.PrefAlign * 8)) := by
    simp [dumpElem, List.cons_append, List.append_assoc]
  rw [hshape]
  apply getToken_split _ _ ':' (by simp)
  intro x hx
  rcases List.mem_cons.mp hx with rfl | hx2
  · exact kindChar_ne_colon _
  · exact digit_not_colon (natRepr_digits _ x hx2)

theorem processToken_dump (td : TargetData) (e : TargetAlignElem)
    (hw : e.TypeBitWidth < 65536) (ha : e.ABIAlign < 256) (hp : e.PrefAlign < 256)
    (hz : e.PrefAlign = 0 → e.ABIAlign = 0) :
    processToken td (dumpElem e) =
      setAlignment td e.AlignType e.ABIAlign e.PrefAlign e.TypeBitWidth := by
  obtain ⟨k, abi, pref, w⟩ := e
  simp only at hw ha hp hz
  have hfa := natRepr_digits (abi * 8)
  have hfp := natRepr_digits (pref * 8)
  have h1 := getToken_dump ⟨k, abi, pref, w⟩
  simp only at h1
  have h2 : getToken (':' :: (natRepr (abi * 8) ++ ':' :: natRepr (pref * 8))) ':' =
      (natRepr (abi * 8), ':' :: natRepr (pref * 8)) := by
    rw [getToken_cons_self]
    exact getToken_split _ _ ':' (natRepr_ne_nil _)
      (fun x hx => digit_not_colon (hfa x hx))
  have h3 : getToken (':' :: natRepr (pref * 8)) ':' = (natRepr (pref * 8), []) := by
    rw [getToken_cons_self]
    exact getToken_full _ ':' (natRepr_ne_nil _)
      (fun x hx => digit_not_colon (hfp x hx))
  cases k <;>
    (simp only [processToken, h1, h2, h3, atoi_natRepr, tdiv_castMul8,
       AlignTypeEnum.kindChar]
     simp [toU16_of_lt hw, toU8_of_lt ha, toU8_of_lt hp]
     by_cases hp0 : pref = 0
     · rw [if_pos hp0, hz hp0, hp0]
     · rw [if_neg hp0])

theorem mem_key_unique {l : List TargetAlignElem} (hWF : tableWF l)
    {x y : TargetAlignElem} (hx : x ∈ l) (hy : y ∈ l)
    (hk : x.AlignType = y.AlignType) (hw : x.TypeBitWidth = y.TypeBitWidth) :
    x = y := by
  induction l with
  | nil => cases hx
  | cons z zs ih =>
    obtain ⟨hz, hzs⟩ := (tableWF_cons_iff z zs).mp hWF
    rcases List.mem_cons.mp hx with rfl | hx2
    · rcases List.mem_cons.mp hy with rfl | hy2
      · rfl
      · exact absurd ⟨hk, hw⟩ (elemLt_keys_ne (hz y hy2))
    · rcases List.mem_cons.mp hy with rfl | hy2
      · exact absurd ⟨hk.symm, hw.symm⟩ (elemLt_keys_ne (hz x hx2))
      · exact ih hzs hx2 hy2

theorem getKey?_of_mem {l : List TargetAlignElem} (hWF : tableWF l)
    {x : TargetAlignElem} (hx : x ∈ l) :
    getKey? l x.AlignType x.TypeBitWidth = some x := by
  obtain ⟨y, hy⟩ := getKey?_isSome_of_hasKey hx x.AlignType x.TypeBitWidth rfl rfl
  obtain ⟨hym, hk, hw⟩ := getKey?_mem hy
  rw [hy, mem_key_unique hWF hym hx hk hw]

theorem tableWF_foldl : ∀ (L T : List TargetAlignElem), tableWF T →
    tableWF (L.foldl insertOrUpdate T) := by
  intro L
  induction L with
  | nil => intro T hT; exact hT
  | cons e L2 ih => intro T hT; exact ih _ (tableWF_insertOrUpdate e hT)

theorem getKey?_foldl_of_none : ∀ (L T : List TargetAlignElem), tableWF T →
    ∀ (k : AlignTypeEnum) (w : Nat), getKey? L k w = none →
    getKey? (L.foldl insertOrUpdate T) k w = getKey? T k w := by
  intro L
  induction L with
  | nil => intro T hT k w _; rw [List.foldl_nil]
  | cons e L2 ih =>
    intro T hT k w h
    have hm : keyMatches e k w = false := by
      by_contra hm2
      rw [Bool.not_eq_false] at hm2
      rw [getKey?_cons_of_match L2 hm2] at h
      cases h
    rw [getKey?_cons_of_not_match L2 hm] at h
    rw [List.foldl_cons, ih _ (tableWF_insertOrUpdate e hT) k w h,
      getKey?_insertOrUpdate hT e k w, if_neg ?hne]
    case hne =>
      rintro ⟨h1, h2⟩
      rw [(keyMatches_true_iff e k w).mpr ⟨h1.symm, h2.symm⟩] at hm
      cases hm

theorem getKey?_foldl_of_some : ∀ (L T : List TargetAlignElem), tableWF L →
    tableWF T → ∀ (k : AlignTypeEnum) (w : Nat) (x : TargetAlignElem),
    getKey? L k w = some x →
    getKey? (L.foldl insertOrUpdate T) k w = some x := by
  intro L
  induction L with
  | nil => intro T _ _ k w x h; cases h
  | cons e L2 ih =>
    intro T hL hT k w x h
    obtain ⟨he, hL2⟩ := (tableWF_cons_iff e L2).mp hL
    by_cases hm : keyMatches e k w = true
    · obtain ⟨h1, h2⟩ := (keyMatches_true_iff _ _ _).mp hm
      rw [getKey?_cons_of_match L2 hm] at h
      cases h
      have hnone : getKey? L2 k w = none := by
        rw [← h1, ← h2]
        exact getKey?_tail_none hL
      rw [List.foldl_cons,
        getKey?_foldl_of_none L2 _ (tableWF_insertOrUpdate e hT) k w hnone,
        getKey?_insertOrUpdate hT e k w, if_pos ⟨h1.symm, h2.symm⟩]
    · have hm2 : keyMatches e k w = false := by simpa using hm
      rw [getKey?_cons_of_not_match L2 hm2] at h
      rw [List.foldl_cons]
      exact ih _ hL2 (tableWF_insertOrUpdate e hT) k w x h

theorem foldl_reinsert {L T : List TargetAlignElem} (hL : tableWF L)
    (hT : tableWF T)
    (hsub : ∀ (k : AlignTypeEnum) (w : Nat) (x : TargetAlignElem),
      getKey? T k w = some x → ∃ y, getKey? L k w = some y) :
    L.foldl insertOrUpdate T = L := by
  apply tableWF_ext (tableWF_foldl L T hT) L hL
  intro k w
  cases hg : getKey? L k w with
  | some x => exact getKey?_foldl_of_some L T hL hT k w x hg
  | none =>
    rw [getKey?_foldl_of_none L T hT k w hg]
    cases hgT : getKey? T k w with
    | none => rfl
    | some y =>
      obtain ⟨z, hz⟩ := hsub k w y hgT
      rw [hg] at hz
      cases hz

theorem set_get_self {α : Type} : ∀ (l : List α) (i : Nat) (x : α),
    l.get? i = some x → l.set i x = l := by
  intro l
  induction l with
  | nil =>
    intro i x h
    simp at h
  | cons a as ih =>
    intro i x h
    cases i with
    | zero =>
      rw [List.get?_cons_zero] at h
      cases h
      rfl
    | succ n =>
      rw [List.get?_cons_succ] at h
      rw [List.set_cons_succ, ih n x h]

theorem lowerBound_key (l : List TargetAlignElem) (e : TargetAlignElem) :
    lowerBound l e = lowerBound l ⟨e.AlignType, 0, 0, e.TypeBitWidth⟩ := by
  have hfun : (fun x => elemLt x e) =
      (fun x => elemLt x ⟨e.AlignType, 0, 0, e.TypeBitWidth⟩) :=
    funext fun x =>
      (elemLt_key_congr e ⟨e.AlignType, 0, 0, e.TypeBitWidth⟩ x rfl rfl).2
  rw [lowerBound, lowerBound, hfun]

theorem insertOrUpdate_self {l : List TargetAlignElem} (hWF : tableWF l)
    {x : TargetAlignElem} (hx : x ∈ l) : insertOrUpdate l x = l := by
  have hget : l.get? (lowerBound l x) = some x := by
    rw [lowerBound_key]
    exact lowerBound_get_of_mem hWF hx x.AlignType x.TypeBitWidth rfl rfl
  simp only [insertOrUpdate, hget]
  rw [if_pos ⟨trivial, trivial⟩]
  exact set_get_self l _ x hget

theorem seed_eq : seedDefaults emptyTD = ⟨false, 8, 8, 8,
    [⟨.INTEGER_ALIGN, 1, 1, 1⟩, ⟨.INTEGER_ALIGN, 1, 1, 8⟩,
     ⟨.INTEGER_ALIGN, 2, 2, 16⟩, ⟨.INTEGER_ALIGN, 4, 4, 32⟩,
     ⟨.INTEGER_ALIGN, 0, 8, 64⟩, ⟨.FLOAT_ALIGN, 4, 4, 32⟩,
     ⟨.FLOAT_ALIGN, 0, 8, 64⟩, ⟨.PACKED_ALIGN, 8, 8, 64⟩,
     ⟨.PACKED_ALIGN, 16, 16, 128⟩, ⟨.AGGREGATE_ALIGN, 0, 0, 0⟩]⟩ := by decide

theorem seed_keys_sub {l : List TargetAlignElem}
    (hK : ∀ kw ∈ defaultKeys, hasKey l kw.1 kw.2) :
    ∀ (k : AlignTypeEnum) (w : Nat) (x : TargetAlignElem),
      getKey? (seedDefaults emptyTD).Alignments k w = some x →
      ∃ y, getKey? l k w = some y := by
  intro k w x hx
  obtain ⟨hmem, h1, h2⟩ := getKey?_mem hx
  rw [seed_eq] at hmem
  simp only [List.mem_cons, List.not_mem_nil, or_false] at hmem
  have hkw : (k, w) ∈ defaultKeys := by
    rcases hmem with rfl | rfl | rfl | rfl | rfl | rfl | rfl | rfl | rfl | rfl <;>
      (simp only at h1 h2; subst h1; subst h2; decide)
  obtain ⟨y, hy, hk1, hk2⟩ := hK (k, w) hkw
  exact getKey?_isSome_of_hasKey hy k w hk1 hk2

/-- The per-record suffix of the printed configuration string: each record
preceded by a hyphen, in table order (the foldl of getStringRepresentation). -/
def elemsStr (l : List TargetAlignElem) : List Char :=
  l.foldl (fun acc e => acc ++ '-' :: dumpElem e) []

theorem foldl_dump_acc : ∀ (l : List TargetAlignElem) (acc : List Char),
    l.foldl (fun acc e => acc ++ '-' :: dumpElem e) acc = acc ++ elemsStr l := by
  intro l
  induction l with
  | nil => intro acc; simp [elemsStr]
  | cons e l2 ih =>
    intro acc
    have hrhs : elemsStr (e :: l2) = ('-' :: dumpElem e) ++ elemsStr l2 := by
      rw [elemsStr, List.foldl_cons, List.nil_append, ih ('-' :: dumpElem e)]
    rw [List.foldl_cons, ih, hrhs]
    simp [List.append_assoc]

theorem elemsStr_cons (e : TargetAlignElem) (l : List TargetAlignElem) :
    elemsStr (e :: l) = '-' :: (dumpElem e ++ elemsStr l) := by
  rw [elemsStr, List.foldl_cons, List.nil_append, foldl_dump_acc,
    List.cons_append]

theorem dumpElem_ne_nil (e : TargetAlignElem) : dumpElem e ≠ [] := by
  simp [dumpElem]

theorem dumpElem_dash_free (e : TargetAlignElem) :
    ∀ c ∈ dumpElem e, (c == '-') = false := by
  intro c hc
  simp only [dumpElem, List.mem_cons, List.mem_append] at hc
  rcases hc with ((rfl | hw) | rfl | ha) | rfl | hp
  · exact kindChar_ne_dash _
  · exact digit_not_dash (natRepr_digits _ c hw)
  · decide
  · exact digit_not_dash (natRepr_digits _ c ha)
  · decide
  · exact digit_not_dash (natRepr_digits _ c hp)

theorem parseLoop_dumpfold : ∀ (l : List TargetAlignElem) (e : TargetAlignElem)
    (td : TargetData),
    (∀ x ∈ e :: l, x.ABIAlign < 256 ∧ x.PrefAlign < 256 ∧
      x.TypeBitWidth < 65536 ∧ (x.PrefAlign = 0 → x.ABIAlign = 0)) →
    parseLoop td (dumpElem e ++ elemsStr l) =
      { td with Alignments := (e :: l).foldl insertOrUpdate td.Alignments } := by
  intro l
  induction l with
  | nil =>
    intro e td h
    obtain ⟨h1, h2, h3, h4⟩ := h e (by simp)
    rw [show elemsStr [] = [] from rfl, List.append_nil,
      parseLoop_single td _ (dumpElem_ne_nil e) (dumpElem_dash_free e),
      processToken_dump td e h3 h1 h2 h4]
    rfl
  | cons x l2 ih =>
    intro e td h
    obtain ⟨h1, h2, h3, h4⟩ := h e (by simp)
    rw [elemsStr_cons,
      parseLoop_token td _ _ (dumpElem_ne_nil e) (dumpElem_dash_free e),
      processToken_dump td e h3 h1 h2 h4,
      ih x _ (fun y hy => h y (List.mem_cons_of_mem e hy))]
    rfl

theorem ptok_dash_free (a b c : Nat) :
    ∀ x ∈ ('p' :: ':' :: (natRepr (a * 8) ++ ':' ::
      (natRepr (b * 8) ++ ':' :: natRepr (c * 8)))), (x == '-') = false := by
  intro x hx
  simp only [List.mem_cons, List.mem_append] at hx
  rcases hx with rfl | rfl | h | rfl | h | rfl | h <;>
    first
    | decide
    | exact digit_not_dash (natRepr_digits _ x h)

theorem parseLoop_ptok_elems : ∀ (l : List TargetAlignElem) (td0 : TargetData)
    (a b c : Nat), a < 256 → b < 256 → c < 256 → (c = 0 → b = 0) →
    (∀ x ∈ l, x.ABIAlign < 256 ∧ x.PrefAlign < 256 ∧ x.TypeBitWidth < 65536 ∧
      (x.PrefAlign = 0 → x.ABIAlign = 0)) →
    parseLoop td0 (('p' :: ':' :: (natRepr (a * 8) ++ ':' ::
        (natRepr (b * 8) ++ ':' :: natRepr (c * 8)))) ++ elemsStr l) =
      { td0 with
          PointerMemSize := a
          PointerABIAlign := b
          PointerPrefAlign := c
          Alignments := l.foldl insertOrUpdate td0.Alignments } := by
  intro l td0 a b c ha hb hc hz hl
  cases l with
  | nil =>
    rw [show elemsStr [] = [] from rfl, List.append_nil,
      parseLoop_single _ _ (by simp) (ptok_dash_free a b c),
      processToken_p td0 a b c ha hb hc hz]
    rfl
  | cons e l2 =>
    rw [elemsStr_cons, parseLoop_token _ _ _ (by simp) (ptok_dash_free a b c),
      processToken_p td0 a b c ha hb hc hz,
      parseLoop_dumpfold l2 e _ hl]

theorem parseLoop_gsr {td : TargetData} (hinv : tdInv td) :
    parseLoop (seedDefaults emptyTD) (getStringRepresentation td) = td := by
  obtain ⟨hWF, hB, hZ, hp1, hp2, hp3, hpz, hK⟩ := hinv
  have hbounds : ∀ x ∈ td.Alignments, x.ABIAlign < 256 ∧ x.PrefAlign < 256 ∧
      x.TypeBitWidth < 65536 ∧ (x.PrefAlign = 0 → x.ABIAlign = 0) := by
    intro x hx
    obtain ⟨h1, h2, h3⟩ := hB x hx
    exact ⟨h1, h2, h3, hZ x hx⟩
  have hshape : getStringRepresentation td =
      (if td.LittleEndian then ['e'] else ['E']) ++ '-' ::
        (('p' :: ':' :: (natRepr (td.PointerMemSize * 8) ++ ':' ::
          (natRepr (td.PointerABIAlign * 8) ++ ':' ::
            natRepr (td.PointerPrefAlign * 8)))) ++ elemsStr td.Alignments) := by
    simp [getStringRepresentation, elemsStr, List.append_assoc, List.cons_append]
  have hne1 : (if td.LittleEndian then ['e'] else ['E']) ≠ [] := by
    cases td.LittleEndian <;> simp
  have hfree1 : ∀ x ∈ (if td.LittleEndian then ['e'] else ['E']),
      (x == '-') = false := by
    cases td.LittleEndian <;>
      (intro x hx; simp at hx; subst hx; decide)
  have hE : processToken (seedDefaults emptyTD)
      (if td.LittleEndian then ['e'] else ['E']) =
      { seedDefaults emptyTD with LittleEndian := td.LittleEndian } := by
    cases hLE : td.LittleEndian
    · simp only [Bool.false_eq_true, if_false]
      exact processToken_E _
    · simp only [if_true]
      exact processToken_e _
  rw [hshape, parseLoop_token _ _ _ hne1 hfree1, hE,
    parseLoop_ptok_elems td.Alignments _ _ _ _ hp1 hp2 hp3 hpz hbounds]
  have hAl : ({ seedDefaults emptyTD with
      LittleEndian := td.LittleEndian } : TargetData).Alignments =
      (seedDefaults emptyTD).Alignments := rfl
  rw [hAl, foldl_reinsert hWF tdInv_seed.1 (seed_keys_sub hK)]

theorem getAlignmentEntry_of_getKey? {td : TargetData}
    (hWF : tableWF td.Alignments) {k : AlignTypeEnum} {w : Nat}
    {x : TargetAlignElem} (hw : w < 65536)
    (hx : getKey? td.Alignments k w = some x) :
    getAlignmentEntry td k w = some x := by
  obtain ⟨hmem, h1, h2⟩ := getKey?_mem hx
  have h := lowerBound_get_of_mem hWF hmem k w h1 h2
  rw [getAlignmentEntry, Nat.mod_eq_of_lt hw]
  exact h

theorem hasKey_getKey? {l : List TargetAlignElem}
    {k : AlignTypeEnum} {w : Nat} (hk : hasKey l k w) :
    ∃ x, getKey? l k w = some x ∧ x.AlignType = k ∧ x.TypeBitWidth = w := by
  obtain ⟨x, hx, h1, h2⟩ := hk
  obtain ⟨y, hy⟩ := getKey?_isSome_of_hasKey hx k w h1 h2
  obtain ⟨hym, hy1, hy2⟩ := getKey?_mem hy
  exact ⟨y, hy, hy1, hy2⟩

theorem fixupLong_stable {td : TargetData} (hWF : tableWF td.Alignments)
    {r : TargetAlignElem}
    (hr : getKey? td.Alignments .INTEGER_ALIGN 64 = some r)
    (hst : r.ABIAlign = 0 → r.PrefAlign = 0 ∧ td.PointerMemSize = 0) :
    fixupLong td = td := by
  have hA : getAlignmentEntry td .INTEGER_ALIGN 64 = some r :=
    getAlignmentEntry_of_getKey? hWF (by norm_num) hr
  simp only [fixupLong, hA]
  by_cases h0 : r.ABIAlign = 0
  · rw [if_pos h0]
    obtain ⟨hpref, hpms⟩ := hst h0
    obtain ⟨hmem, h1, h2⟩ := getKey?_mem hr
    have hrec : (⟨.INTEGER_ALIGN, td.PointerMemSize, td.PointerMemSize, 64⟩ :
        TargetAlignElem) = r := by
      obtain ⟨ra, rb, rc, rd⟩ := r
      simp only at h0 hpref h1 h2
      rw [hpms, h1, h2, h0, hpref]
    rw [setAlignment, hrec, insertOrUpdate_self hWF hmem]
  · rw [if_neg h0]

theorem fixupDouble_stable {td : TargetData} (hWF : tableWF td.Alignments)
    {r : TargetAlignElem}
    (hr : getKey? td.Alignments .FLOAT_ALIGN 64 = some r)
    (hst : r.ABIAlign = 0 → r.PrefAlign = 0 ∧ td.PointerMemSize = 0) :
    fixupDouble td = td := by
  have hA : getAlignmentEntry td .FLOAT_ALIGN 64 = some r :=
    getAlignmentEntry_of_getKey? hWF (by norm_num) hr
  simp only [fixupDouble, hA]
  by_cases h0 : r.ABIAlign = 0
  · rw [if_pos h0]
    obtain ⟨hpref, hpms⟩ := hst h0
    obtain ⟨hmem, h1, h2⟩ := getKey?_mem hr
    have hrec : (⟨.FLOAT_ALIGN, td.PointerMemSize, td.PointerMemSize, 64⟩ :
        TargetAlignElem) = r := by
      obtain ⟨ra, rb, rc, rd⟩ := r
      simp only at h0 hpref h1 h2
      rw [hpms, h1, h2, h0, hpref]
    rw [setAlignment, hrec, insertOrUpdate_self hWF hmem]
  · rw [if_neg h0]

/-- The entry stability established by the fixups: after init, the (kind, 64)
record for INTEGER (resp. FLOAT) can have ABI alignment 0 only if its
preferred alignment and the pointer size are 0 as well -- the fixup wrote
(PointerMemSize, PointerMemSize) whenever it found ABI alignment 0. -/
theorem init_stable (s : List Char) :
    (∃ r, getKey? (init s).Alignments .INTEGER_ALIGN 64 = some r ∧
      (r.ABIAlign = 0 → r.PrefAlign = 0 ∧ (init s).PointerMemSize = 0)) ∧
    (∃ r, getKey? (init s).Alignments .FLOAT_ALIGN 64 = some r ∧
      (r.ABIAlign = 0 → r.PrefAlign = 0 ∧ (init s).PointerMemSize = 0)) := by
  have hm : tdInv (parseLoop (seedDefaults emptyTD) s) :=
    parseLoop_inv tdInv (fun td tok h => tdInv_processToken h tok) s _ tdInv_seed
  have hm1 : tdInv (fixupLong (parseLoop (seedDefaults emptyTD) s)) :=
    tdInv_fixupLong hm
  have hIntm1 : ∃ r, getKey?
      (fixupLong (parseLoop (seedDefaults emptyTD) s)).Alignments
        .INTEGER_ALIGN 64 = some r ∧
      (r.ABIAlign = 0 → r.PrefAlign = 0 ∧
        (fixupLong (parseLoop (seedDefaults emptyTD) s)).PointerMemSize = 0) := by
    obtain ⟨r0, hr0, hr0k, hr0w⟩ := hasKey_getKey?
      (hm.2.2.2.2.2.2.2 (.INTEGER_ALIGN, 64) (by decide))
    have hA : getAlignmentEntry (parseLoop (seedDefaults emptyTD) s)
        .INTEGER_ALIGN 64 = some r0 :=
      getAlignmentEntry_of_getKey? hm.1 (by norm_num) hr0
    by_cases h0 : r0.ABIAlign = 0
    · have hfix : fixupLong (parseLoop (seedDefaults emptyTD) s) =
          setAlignment (parseLoop (seedDefaults emptyTD) s) .INTEGER_ALIGN
            (parseLoop (seedDefaults emptyTD) s).PointerMemSize
            (parseLoop (seedDefaults emptyTD) s).PointerMemSize 64 := by
        simp only [fixupLong, hA]
        rw [if_pos h0]
      refine ⟨⟨.INTEGER_ALIGN, (parseLoop (seedDefaults emptyTD) s).PointerMemSize,
        (parseLoop (seedDefaults emptyTD) s).PointerMemSize, 64⟩, ?_, ?_⟩
      · rw [hfix, setAlignment]
        rw [getKey?_insertOrUpdate hm.1 _ .INTEGER_ALIGN 64, if_pos ⟨rfl, rfl⟩]
      · intro hz
        simp only at hz
        rw [hfix]
        exact ⟨hz, hz⟩
    · have hfix : fixupLong (parseLoop (seedDefaults emptyTD) s) =
          parseLoop (seedDefaults emptyTD) s := by
        simp only [fixupLong, hA]
        rw [if_neg h0]
      rw [hfix]
      exact ⟨r0, hr0, fun hz => absurd hz h0⟩
  constructor
  · -- the INTEGER record survives fixupDouble untouched
    obtain ⟨r, hr, hst⟩ := hIntm1
    obtain ⟨r1, hr1, hr1k, hr1w⟩ := hasKey_getKey?
      (hm1.2.2.2.2.2.2.2 (.FLOAT_ALIGN, 64) (by decide))
    have hA1 : getAlignmentEntry (fixupLong (parseLoop (seedDefaults emptyTD) s))
        .FLOAT_ALIGN 64 = some r1 :=
      getAlignmentEntry_of_getKey? hm1.1 (by norm_num) hr1
    by_cases h0 : r1.ABIAlign = 0
    · have hfix : init s =
          setAlignment (fixupLong (parseLoop (seedDefaults emptyTD) s))
            .FLOAT_ALIGN
            (fixupLong (parseLoop (seedDefaults emptyTD) s)).PointerMemSize
            (fixupLong (parseLoop (seedDefaults emptyTD) s)).PointerMemSize
            64 := by
        rw [init]
        simp only [fixupDouble, hA1]
        rw [if_pos h0]
      refine ⟨r, ?_, ?_⟩
      · rw [hfix, setAlignment]
        rw [getKey?_insertOrUpdate hm1.1 _ .INTEGER_ALIGN 64,
          if_neg (by rintro ⟨h1, h2⟩; simp at h1)]
        exact hr
      · intro hz
        rw [hfix]
        exact hst hz
    · have hfix : init s = fixupLong (parseLoop (seedDefaults emptyTD) s) := by
        rw [init]
        simp only [fixupDouble, hA1]
        rw [if_neg h0]
      rw [hfix]
      exact ⟨r, hr, hst⟩
  · -- the FLOAT record after fixupDouble
    obtain ⟨r1, hr1, hr1k, hr1w⟩ := hasKey_getKey?
      (hm1.2.2.2.2.2.2.2 (.FLOAT_ALIGN, 64) (by decide))
    have hA1 : getAlignmentEntry (fixupLong (parseLoop (seedDefaults emptyTD) s))
        .FLOAT_ALIGN 64 = some r1 :=
      getAlignmentEntry_of_getKey? hm1.1 (by norm_num) hr1
    by_cases h0 : r1.ABIAlign = 0
    · have hfix : init s =
          setAlignment (fixupLong (parseLoop (seedDefaults emptyTD) s))
            .FLOAT_ALIGN
            (fixupLong (parseLoop (seedDefaults emptyTD) s)).PointerMemSize
            (fixupLong (parseLoop (seedDefaults emptyTD) s)).PointerMemSize
            64 := by
        rw [init]
        simp only [fixupDouble, hA1]
        rw [if_pos h0]
      refine ⟨⟨.FLOAT_ALIGN,
        (fixupLong (parseLoop (seedDefaults emptyTD) s)).PointerMemSize,
        (fixupLong (parseLoop (seedDefaults emptyTD) s)).PointerMemSize, 64⟩,
        ?_, ?_⟩
      · rw [hfix, setAlignment]
        rw [getKey?_insertOrUpdate hm1.1 _ .FLOAT_ALIGN 64, if_pos ⟨rfl, rfl⟩]
      · intro hz
        simp only at hz
        rw [hfix]
        exact ⟨hz, hz⟩
    · have hfix : init s = fixupLong (parseLoop (seedDefaults emptyTD) s) := by
        rw [init]
        simp only [fixupDouble, hA1]
        rw [if_neg h0]
      rw [hfix]
      exact ⟨r1, hr1, fun hz => absurd hz h0⟩

/-- Claim C4: the canonical printed form round-trips.  For every descriptor
built by init from the default seed plus any sequence of overrides from a
configuration string s, re-parsing the printed canonical form
getStringRepresentation yields an equal descriptor: the same endianness
flag, the same pointer size and ABI/preferred pointer alignments, and the
same alignment table. -/
theorem claim4_theorem (s : List Char) :
    init (getStringRepresentation (init s)) = init s := by
  obtain ⟨⟨rI, hrI, hstI⟩, ⟨rF, hrF, hstF⟩⟩ := init_stable s
  have hinv := init_tdInv s
  have h1 : parseLoop (seedDefaults emptyTD) (getStringRepresentation (init s)) =
      init s := parseLoop_gsr hinv
  show fixupDouble (fixupLong (parseLoop (seedDefaults emptyTD)
    (getStringRepresentation (init s)))) = init s
  rw [h1, fixupLong_stable hinv.1 hrI hstI, fixupDouble_stable hinv.1 hrF hstF]
